import Mathlib

/-!
Verification of the xv6-riscv slab allocator (kernel/slab.c), the physical
page allocator (kernel/kalloc.c) and the slab syscall handle table
(kernel/sysslab.c), as a shallow embedding in Lean.

Machine integers are modelled as `Nat` with explicit wrap-around at `2 ^ 32`
(`uint`) where the C code can overflow.  Pointers are modelled as `Nat`
addresses with `0` playing the role of the null pointer.  The word of memory
stored in the first bytes of each object (the intrusive free-list link) is
modelled as a total function `Nat → Nat` from addresses to stored words; a
`panic` is modelled by returning `none`.
-/

namespace Slab

/-- Page size in bytes (PGSIZE from riscv.h). -/
def PGSIZE : Nat := 4096

/-- Default alignment, one cache line (slab.c). -/
def DEFAULT_ALIGN : Nat := 64

/-- Minimum object size accepted by kmem_cache_create (slab.c). -/
def MIN_OBJ_SIZE : Nat := 8

/-- Modulus of C `uint` (32-bit) arithmetic. -/
def U32 : Nat := 2 ^ 32

/-- C `uint` decrement `n--` with wrap-around at `2 ^ 32`. -/
def udec (n : Nat) : Nat := (n + (U32 - 1)) % U32

/-- C `uint` increment `n++` with wrap-around at `2 ^ 32`. -/
def uinc (n : Nat) : Nat := (n + 1) % U32

/-- align_size from slab.c: `(size + align - 1) & ~(align - 1)` in `uint`
arithmetic, with `align == 0` replaced by DEFAULT_ALIGN first. -/
def align_size (size align : Nat) : Nat :=
  let a := if align = 0 then DEFAULT_ALIGN else align
  ((size + a - 1) % U32) &&& (U32 - a)

/-- struct slab from slab.h.  The back-pointer to the cache is left implicit
(each model state carries a single cache); the list link `next` is represented
by the position of the slab inside the list that holds it. -/
structure SlabHdr where
  mem : Nat
  nr_objs : Nat
  nr_free : Nat
  freelist : Nat
deriving Repr, DecidableEq

/-- struct kmem_cache from slab.h.  The three intrusive slab lists become
lists of slab headers; slabs are identified across updates by their `mem`
address, which is unique per slab (each slab owns one frame).  The ctor/dtor
callbacks act outside the modelled state and are omitted. -/
structure KmemCache where
  name : String
  objsize : Nat
  align : Nat
  partial_slabs : List SlabHdr
  full_slabs : List SlabHdr
  empty_slabs : List SlabHdr
deriving Repr, DecidableEq

/-- Whole-model state: the word heap (first pointer-sized word stored at each
address), the kalloc free list of 4 KiB frame base addresses, and one cache. -/
structure SlabState where
  heap : Nat → Nat
  frames : List Nat
  cache : KmemCache

/-- The word every byte-5 memset of kalloc leaves in an 8-byte word. -/
def kallocPoisonWord : Nat := 0x0505050505050505

/-- Overwrite every word cell whose address falls in `[base, base+len)`. -/
def memsetWords (base len val : Nat) (h : Nat → Nat) : Nat → Nat :=
  fun a => if base ≤ a ∧ a < base + len then val else h a

/-- The freelist-threading loop of slab_create: object `i` stores the address
of object `i+1`; the last object stores null. -/
def threadFreelist (page objsize nrObjs : Nat) (h : Nat → Nat) : Nat → Nat :=
  (List.range nrObjs).foldl
    (fun h i => fun a =>
      if a = page + i * objsize then
        (if i = nrObjs - 1 then 0 else page + (i + 1) * objsize)
      else h a) h

/-- slab_create from slab.c.  Fails when the object size exceeds a page or
when either of the two kalloc calls (one frame for the object area, one for
the slab header structure) fails; on the second failure the first frame is
returned to the allocator, so the caller's frame list is unchanged.  Returns
the new slab header, the updated heap and the remaining frame list. -/
def slab_create (cache : KmemCache) (heap : Nat → Nat) (frames : List Nat) :
    Option (SlabHdr × (Nat → Nat) × List Nat) :=
  if PGSIZE < cache.objsize then none
  else
    match frames with
    | [] => none
    | page :: rest =>
      match rest with
      | [] => none
      | _hdrFrame :: rest' =>
        let nrObjs := PGSIZE / cache.objsize
        let heap' := threadFreelist page cache.objsize nrObjs
          (memsetWords page PGSIZE kallocPoisonWord heap)
        some ({ mem := page, nr_objs := nrObjs, nr_free := nrObjs,
                freelist := page }, heap', rest')

/-- slab_remove from slab.c: unlink the slab (identified by its `mem`
address) from a list; a no-op when the slab is not on the list. -/
def slab_remove (l : List SlabHdr) (s : SlabHdr) : List SlabHdr :=
  match l with
  | [] => []
  | x :: xs => if x.mem = s.mem then xs else x :: slab_remove xs s

/-- In-place mutation of a slab's header, as seen by every list that links
it: replace the entry with the same `mem` address. -/
def update_slab (l : List SlabHdr) (s : SlabHdr) : List SlabHdr :=
  l.map (fun x => if x.mem = s.mem then s else x)

/-- kmem_cache_create from slab.c.  `name = none` models a null name pointer.
One frame is consumed for the cache descriptor; `strncpy` keeps at most 31
characters of the name.  Returns the new cache and the remaining frames. -/
def kmem_cache_create (name : Option String) (objsize align : Nat)
    (frames : List Nat) : Option (KmemCache × List Nat) :=
  if name = none ∨ objsize < MIN_OBJ_SIZE then none
  else
    match frames with
    | [] => none
    | _cacheFrame :: rest =>
      some ({ name := (name.getD "").take 31,
              objsize := align_size objsize align,
              align := align,
              partial_slabs := [], full_slabs := [], empty_slabs := [] }, rest)

/-- kmem_cache_alloc from slab.c: serve from the first partial slab, else the
first empty slab, else a freshly created slab; pop the head of its free list
(the new free-list head is the word stored in the popped object) and
decrement nr_free; reclassify.  Returns the object address (0 = null) and
the new state. -/
def kmem_cache_alloc (st : SlabState) : Nat × SlabState :=
  let c := st.cache
  match c.partial_slabs with
  | s :: _ =>
    let obj := s.freelist
    let s' : SlabHdr := { s with freelist := st.heap obj, nr_free := udec s.nr_free }
    let c' := { c with partial_slabs := update_slab c.partial_slabs s' }
    if s'.nr_free = 0 then
      (obj, { st with cache := { c' with
          partial_slabs := slab_remove c'.partial_slabs s',
          full_slabs := s' :: c'.full_slabs } })
    else
      (obj, { st with cache := c' })
  | [] =>
    match c.empty_slabs with
    | s :: _ =>
      let obj := s.freelist
      let s' : SlabHdr := { s with freelist := st.heap obj, nr_free := udec s.nr_free }
      let c' := { c with empty_slabs := update_slab c.empty_slabs s' }
      (obj, { st with cache := { c' with
          empty_slabs := slab_remove c'.empty_slabs s',
          partial_slabs := s' :: c'.partial_slabs } })
    | [] =>
      match slab_create c st.heap st.frames with
      | none => (0, st)
      | some (s, heap', frames') =>
        let obj := s.freelist
        let s' : SlabHdr := { s with freelist := heap' obj, nr_free := udec s.nr_free }
        (obj, { heap := heap', frames := frames',
                cache := { c with partial_slabs := s' :: c.partial_slabs } })

/-- The linear scan of one slab list in kmem_cache_free: first slab whose
frame range `[mem, mem + PGSIZE)` contains the object address. -/
def slab_find (l : List SlabHdr) (obj : Nat) : Option SlabHdr :=
  match l with
  | [] => none
  | s :: ss => if s.mem ≤ obj ∧ obj < s.mem + PGSIZE then some s else slab_find ss obj

/-- The full owning-slab lookup of kmem_cache_free: scan partial, then full,
then empty. -/
def find_owner (c : KmemCache) (obj : Nat) : Option SlabHdr :=
  match slab_find c.partial_slabs obj with
  | some s => some s
  | none =>
    match slab_find c.full_slabs obj with
    | some s => some s
    | none => slab_find c.empty_slabs obj

/-- All slabs of a cache, in scan order: partial, then full, then empty. -/
def allSlabs (c : KmemCache) : List SlabHdr :=
  c.partial_slabs ++ c.full_slabs ++ c.empty_slabs

/-- kmem_cache_free from slab.c.  `obj = 0` models a null object pointer
(silent no-op); `none` models the panic when the object lies in no slab of
the cache.  Otherwise the object is pushed onto the owning slab's free list
(its first word receives the old free-list head), nr_free is incremented,
and the slab is reclassified. -/
def kmem_cache_free (st : SlabState) (obj : Nat) : Option SlabState :=
  if obj = 0 then some st
  else
    match find_owner st.cache obj with
    | none => none
    | some s =>
      let heap' := fun a => if a = obj then s.freelist else st.heap a
      let s' : SlabHdr := { s with freelist := obj, nr_free := uinc s.nr_free }
      let c := st.cache
      let c1 := { c with partial_slabs := update_slab c.partial_slabs s',
                         full_slabs := update_slab c.full_slabs s',
                         empty_slabs := update_slab c.empty_slabs s' }
      let c2 :=
        if s'.nr_free = 1 then
          { c1 with full_slabs := slab_remove c1.full_slabs s',
                    partial_slabs := s' :: c1.partial_slabs }
        else if s'.nr_free = s'.nr_objs then
          { c1 with partial_slabs := slab_remove c1.partial_slabs s',
                    empty_slabs := s' :: c1.empty_slabs }
        else c1
      some { st with heap := heap', cache := c2 }

/-- Walk of a slab's intrusive free list: follow the word stored at each
node, for at most `fuel` steps, stopping at null. -/
def chainL (h : Nat → Nat) : Nat → Nat → List Nat
  | 0, _ => []
  | fuel + 1, p => if p = 0 then [] else p :: chainL h fuel (h p)

/-- The free-list walk from `p` reaches null in exactly `fuel` steps. -/
def chainOkB (h : Nat → Nat) : Nat → Nat → Bool
  | 0, p => p == 0
  | n + 1, p => p != 0 && chainOkB h n (h p)

/-- Addresses of the object slots of a slab (`mem + i * objsize`). -/
def slotAddrs (mem objsize nrObjs : Nat) : List Nat :=
  (List.range nrObjs).map (fun i => mem + i * objsize)

/-! Concrete execution traces used to refute claims.  `hz` is an all-zero
initial word heap; frame addresses are arbitrary page-aligned values. -/

/-- An all-zero initial word heap. -/
def hz : Nat → Nat := fun _ => 0

/-- The cache produced by `kmem_cache_create "t" 2048 0`: align 0 defaults
to 64, and 2048 is already a multiple of 64. -/
def tcache : KmemCache :=
  { name := "t", objsize := 2048, align := 0,
    partial_slabs := [], full_slabs := [], empty_slabs := [] }

/-- State of the `tcache` trace right after cache creation: two free frames
remain (one will hold the object area, one the slab header struct). -/
def trc0 : SlabState := { heap := hz, frames := [8192, 16384], cache := tcache }

/-- After the first allocation (returns object 8192). -/
def trc1 : SlabState := (kmem_cache_alloc trc0).2

/-- After the second allocation (returns object 10240; the slab is full). -/
def trc2 : SlabState := (kmem_cache_alloc trc1).2

/-- After freeing object 8192 (slab back to partial). -/
def trc3 : SlabState := (kmem_cache_free trc2 8192).getD trc0

/-- After freeing object 10240 (slab moves to empty, nr_free = nr_objs). -/
def trc4 : SlabState := (kmem_cache_free trc3 10240).getD trc0

/-- After freeing object 8192 a second time (a double free). -/
def trc5 : SlabState := (kmem_cache_free trc4 8192).getD trc0

/-- The cache produced by `kmem_cache_create "big" 4096 0`: one object per
slab (`nr_objs = 4096 / 4096 = 1`). -/
def bigcache : KmemCache :=
  { name := "big", objsize := 4096, align := 0,
    partial_slabs := [], full_slabs := [], empty_slabs := [] }

/-- State of the `bigcache` trace right after cache creation. -/
def bigst0 : SlabState := { heap := hz, frames := [8192, 16384], cache := bigcache }

/-- Disjointness of the 4 KiB frame ranges based at two addresses. -/
def addrDisjoint (a b : Nat) : Prop :=
  a + PGSIZE ≤ b ∨ b + PGSIZE ≤ a

/-- The frame base addresses of all slabs of a cache. -/
def memsOf (c : KmemCache) : List Nat :=
  (allSlabs c).map SlabHdr.mem

/-- Well-formedness of one slab header with respect to the word heap: the
object count matches the cache geometry, nr_free never exceeds it, and the
free-list walk reaches null in exactly nr_free steps through distinct
object-slot addresses of this slab. -/
def slabWF (h : Nat → Nat) (objsize : Nat) (s : SlabHdr) : Prop :=
  s.mem ≠ 0 ∧
  s.nr_objs = PGSIZE / objsize ∧
  s.nr_free ≤ s.nr_objs ∧
  chainOkB h s.nr_free s.freelist = true ∧
  (chainL h s.nr_free s.freelist).Nodup ∧
  ∀ a ∈ chainL h s.nr_free s.freelist, a ∈ slotAddrs s.mem objsize s.nr_objs

/-- The slab-engine invariant: cache geometry gives at least two objects per
slab, every slab is well formed, slab frames are pairwise disjoint, each of
the three lists holds exactly the slabs of its classification
(empty ⇔ nr_free = nr_objs, full ⇔ nr_free = 0, partial ⇔ strictly between),
and the kalloc free frames are nonzero and disjoint from every slab. -/
def Inv (st : SlabState) : Prop :=
  2 ≤ PGSIZE / st.cache.objsize ∧
  (∀ s ∈ allSlabs st.cache, slabWF st.heap st.cache.objsize s) ∧
  (memsOf st.cache).Pairwise addrDisjoint ∧
  (∀ s ∈ st.cache.partial_slabs, 0 < s.nr_free ∧ s.nr_free < s.nr_objs) ∧
  (∀ s ∈ st.cache.full_slabs, s.nr_free = 0) ∧
  (∀ s ∈ st.cache.empty_slabs, s.nr_free = s.nr_objs) ∧
  (∀ f ∈ st.frames, f ≠ 0 ∧ ∀ m ∈ memsOf st.cache, addrDisjoint f m) ∧
  st.frames.Pairwise addrDisjoint

/-- The object `obj` is a currently-allocated object of the cache: an object
slot of one of its slabs that is not on that slab's free list. -/
def allocatedObj (st : SlabState) (obj : Nat) : Prop :=
  ∃ s ∈ allSlabs st.cache,
    obj ∈ slotAddrs s.mem st.cache.objsize s.nr_objs ∧
    obj ∉ chainL st.heap s.nr_free s.freelist

instance (a b : Nat) : Decidable (addrDisjoint a b) :=
  inferInstanceAs (Decidable (_ ∨ _))

instance (h : Nat → Nat) (os : Nat) (s : SlabHdr) : Decidable (slabWF h os s) :=
  inferInstanceAs (Decidable (_ ∧ _ ∧ _ ∧ _ ∧ _ ∧ _))

instance (st : SlabState) : Decidable (Inv st) :=
  inferInstanceAs (Decidable (_ ∧ _ ∧ _ ∧ _ ∧ _ ∧ _ ∧ _ ∧ _))

instance (st : SlabState) (obj : Nat) : Decidable (allocatedObj st obj) :=
  inferInstanceAs (Decidable (∃ s ∈ _, _ ∧ _))

end Slab

namespace Kalloc

/-- Page size in bytes. -/
def PGSIZE : Nat := 4096

/-- Super-page size: 2 MiB. -/
def SUPERPGSIZE : Nat := 2 * 1024 * 1024

/-- Number of reserved 2 MiB super-frames (kalloc.c). -/
def NSUPERPAGES : Nat := 8

/-- Modulus of C `uint64` arithmetic. -/
def U64 : Nat := 2 ^ 64

/-- SUPERPGROUNDUP from riscv.h: round up to a 2 MiB boundary with the
usual mask idiom in `uint64` arithmetic. -/
def SUPERPGROUNDUP (x : Nat) : Nat :=
  ((x + SUPERPGSIZE - 1) % U64) &&& (U64 - SUPERPGSIZE)

/-- State of the 4 KiB page allocator: byte-granular contents of physical
memory and the free list of frame base addresses.  The intrusive
`r->next` link word of each free frame is represented by the list order
rather than inside `mem`. -/
structure KmemState where
  mem : Nat → Nat
  freelist : List Nat

/-- kfree from kalloc.c, parametrized by the link-time constants
`kernelEnd` (the `end` symbol) and `PHYSTOP`.  `none` models the panic;
otherwise the frame is filled with the poison byte 1 and pushed onto the
free list. -/
def kfree (kernelEnd PHYSTOP : Nat) (st : KmemState) (pa : Nat) : Option KmemState :=
  if pa % PGSIZE ≠ 0 ∨ pa < kernelEnd ∨ PHYSTOP ≤ pa then none
  else some { mem := fun a => if pa ≤ a ∧ a < pa + PGSIZE then 1 else st.mem a,
              freelist := pa :: st.freelist }

/-- The reserved super-frame region installed by kinit: `NSUPERPAGES`
super-frames starting at the first 2 MiB boundary at or above `kernelEnd`. -/
def superRegionStart (kernelEnd : Nat) : Nat := SUPERPGROUNDUP kernelEnd

/-- Membership in the reserved super-frame region. -/
def inSuperRegion (kernelEnd pa : Nat) : Prop :=
  superRegionStart kernelEnd ≤ pa ∧
  pa < superRegionStart kernelEnd + NSUPERPAGES * SUPERPGSIZE



/-- Example link-time constants for the kfree trace: a 2 MiB-aligned kernel
end and the usual PHYSTOP. -/
def exKernelEnd : Nat := 0x80200000

/-- Example PHYSTOP (128 MiB above KERNBASE). -/
def exPhystop : Nat := 0x88000000

/-- The frame freed (twice) in the counterexample trace: the first frame of
the reserved super-frame region. -/
def exPa : Nat := 0x80200000

/-- Initial allocator state of the kfree trace: zeroed memory, empty list. -/
def kst0 : KmemState := ⟨fun _ => 0, []⟩

/-- State after freeing exPa once. -/
def kst1 : KmemState := (kfree exKernelEnd exPhystop kst0 exPa).getD kst0

/-- State after freeing exPa twice. -/
def kst2 : KmemState := (kfree exKernelEnd exPhystop kst1 exPa).getD kst0

end Kalloc
namespace SysSlab

/-- Capacity of the syscall-layer cache handle table (sysslab.c). -/
def MAX_CACHES : Nat := 64

/-- alloc_cache_id from sysslab.c: index of the first empty table entry,
`none` modelling the C return value -1. -/
def alloc_cache_id (t : List (Option Nat)) : Option Nat :=
  t.findIdx? fun e => e.isNone

/-- Result of sys_kmem_cache_create: the syscall return value, the table
afterwards, and whether the just-created engine cache was destroyed again
because no table slot was free. -/
structure CreateResult where
  ret : Int
  table : List (Option Nat)
  destroyedNew : Bool
deriving Repr, DecidableEq

/-- sys_kmem_cache_create from sysslab.c, abstracted over the result of the
underlying `kmem_cache_create` call (`created`, a nonzero cache handle, or
`none` for failure). -/
def sys_kmem_cache_create (t : List (Option Nat)) (created : Option Nat) : CreateResult :=
  match created with
  | none => ⟨-1, t, false⟩
  | some c =>
    match alloc_cache_id t with
    | none => ⟨-1, t, true⟩
    | some i => ⟨(i : Int), t.set i (some c), false⟩

/-- sys_kmem_cache_destroy from sysslab.c: reject out-of-range or empty
handles with -1, otherwise destroy the cache and clear the table entry. -/
def sys_kmem_cache_destroy (t : List (Option Nat)) (id : Int) : Int × List (Option Nat) :=
  if id < 0 ∨ (MAX_CACHES : Int) ≤ id ∨ t.getD id.toNat none = none then (-1, t)
  else (0, t.set id.toNat none)

end SysSlab

namespace Slab

/-- C8: kmem_cache_alloc chooses its source slab with priority partial,
then empty, then a freshly created slab (and if creation fails it returns
null with the state unchanged); in every branch the returned object is the
head of the chosen slab's free list, the free list advances to the word
stored in that object, and nr_free is decremented (by exactly one whenever
it was positive and below the uint wrap-around). -/
theorem alloc_priority_and_pop (st : SlabState) :
    (∀ s rest, st.cache.partial_slabs = s :: rest →
      (kmem_cache_alloc st).1 = s.freelist ∧
      (if udec s.nr_free = 0
        then (kmem_cache_alloc st).2.cache.full_slabs.head? =
          some { s with freelist := st.heap s.freelist, nr_free := udec s.nr_free }
        else (kmem_cache_alloc st).2.cache.partial_slabs.head? =
          some { s with freelist := st.heap s.freelist, nr_free := udec s.nr_free })) ∧
    (st.cache.partial_slabs = [] → ∀ s rest, st.cache.empty_slabs = s :: rest →
      (kmem_cache_alloc st).1 = s.freelist ∧
      (kmem_cache_alloc st).2.cache.partial_slabs.head? =
        some { s with freelist := st.heap s.freelist, nr_free := udec s.nr_free }) ∧
    (st.cache.partial_slabs = [] → st.cache.empty_slabs = [] →
      slab_create st.cache st.heap st.frames = none →
      kmem_cache_alloc st = (0, st)) ∧
    (st.cache.partial_slabs = [] → st.cache.empty_slabs = [] →
      ∀ s heap' frames', slab_create st.cache st.heap st.frames = some (s, heap', frames') →
        (kmem_cache_alloc st).1 = s.freelist ∧
        (kmem_cache_alloc st).2.frames = frames' ∧
        (kmem_cache_alloc st).2.cache.partial_slabs.head? =
          some { s with freelist := heap' s.freelist, nr_free := udec s.nr_free }) ∧
    (∀ n, 0 < n → n < U32 → udec n = n - 1) := by
  refine ⟨?_, ?_, ?_, ?_, ?_⟩
  · intro s rest hpart
    by_cases h0 : udec s.nr_free = 0 <;>
      simp [kmem_cache_alloc, hpart, update_slab, slab_remove, h0]
  · intro hpart s rest hempty
    simp [kmem_cache_alloc, hpart, hempty, update_slab, slab_remove]
  · intro hpart hempty hcreate
    simp [kmem_cache_alloc, hpart, hempty, hcreate]
  · intro hpart hempty s heap' frames' hcreate
    simp [kmem_cache_alloc, hpart, hempty, hcreate]
  · intro n h1 h2
    have hU : U32 = 4294967296 := by norm_num [U32]
    unfold udec
    rw [hU] at h2 ⊢
    omega


/-- Witness for alloc_priority_and_pop at the reachable state trc1. -/
theorem alloc_priority_and_pop_witness :
    (∀ s rest, trc1.cache.partial_slabs = s :: rest →
      (kmem_cache_alloc trc1).1 = s.freelist ∧
      (if udec s.nr_free = 0
        then (kmem_cache_alloc trc1).2.cache.full_slabs.head? =
          some { s with freelist := trc1.heap s.freelist, nr_free := udec s.nr_free }
        else (kmem_cache_alloc trc1).2.cache.partial_slabs.head? =
          some { s with freelist := trc1.heap s.freelist, nr_free := udec s.nr_free })) ∧
    (trc1.cache.partial_slabs = [] → ∀ s rest, trc1.cache.empty_slabs = s :: rest →
      (kmem_cache_alloc trc1).1 = s.freelist ∧
      (kmem_cache_alloc trc1).2.cache.partial_slabs.head? =
        some { s with freelist := trc1.heap s.freelist, nr_free := udec s.nr_free }) ∧
    (trc1.cache.partial_slabs = [] → trc1.cache.empty_slabs = [] →
      slab_create trc1.cache trc1.heap trc1.frames = none →
      kmem_cache_alloc trc1 = (0, trc1)) ∧
    (trc1.cache.partial_slabs = [] → trc1.cache.empty_slabs = [] →
      ∀ s heap' frames', slab_create trc1.cache trc1.heap trc1.frames = some (s, heap', frames') →
        (kmem_cache_alloc trc1).1 = s.freelist ∧
        (kmem_cache_alloc trc1).2.frames = frames' ∧
        (kmem_cache_alloc trc1).2.cache.partial_slabs.head? =
          some { s with freelist := heap' s.freelist, nr_free := udec s.nr_free }) ∧
    (∀ n, 0 < n → n < U32 → udec n = n - 1) :=
  alloc_priority_and_pop trc1


/-- A free-list walk that reaches null in n+1 steps starts at a nonzero
node and continues correctly. -/
theorem chainOkB_succ {h : Nat → Nat} {n p : Nat}
    (hok : chainOkB h (n + 1) p = true) :
    p ≠ 0 ∧ chainOkB h n (h p) = true := by
  have := hok
  unfold chainOkB at this
  simp only [Bool.and_eq_true, bne_iff_ne, ne_eq] at this
  exact ⟨this.1, this.2⟩

/-- Unfolding of the free-list walk at positive fuel and nonzero head. -/
theorem chainL_succ {h : Nat → Nat} {n p : Nat} (hp : p ≠ 0) :
    chainL h (n + 1) p = p :: chainL h n (h p) := by
  rw [chainL]
  rw [if_neg hp]

/-- A complete walk visits exactly as many nodes as its fuel. -/
theorem chainL_length {h : Nat → Nat} {n p : Nat}
    (hok : chainOkB h n p = true) :
    (chainL h n p).length = n := by
  induction n generalizing p with
  | zero => rfl
  | succ n ih =>
    rcases chainOkB_succ hok with ⟨hp, hok'⟩
    rw [chainL_succ hp, List.length_cons, ih hok']

/-- Walks only look at the heap on the nodes they visit: two heaps agreeing
on every visited node produce the same walk. -/
theorem chain_congr {h h' : Nat → Nat} {n p : Nat}
    (hok : chainOkB h n p = true)
    (hagree : ∀ a ∈ chainL h n p, h' a = h a) :
    chainOkB h' n p = true ∧ chainL h' n p = chainL h n p := by
  induction n generalizing p with
  | zero => exact ⟨hok, rfl⟩
  | succ n ih =>
    rcases chainOkB_succ hok with ⟨hp, hok'⟩
    have hpmem : p ∈ chainL h (n + 1) p := by
      rw [chainL_succ hp]
      exact List.mem_cons_self _ _
    have hph : h' p = h p := hagree p hpmem
    have hagree' : ∀ a ∈ chainL h n (h p), h' a = h a := by
      intro a ha
      apply hagree
      rw [chainL_succ hp]
      exact List.mem_cons_of_mem _ ha
    rcases ih hok' hagree' with ⟨hok2, hL2⟩
    constructor
    · unfold chainOkB
      simp only [Bool.and_eq_true, bne_iff_ne, ne_eq]
      exact ⟨hp, by rw [hph]; exact hok2⟩
    · rw [chainL_succ hp, chainL_succ hp, hph, hL2]

/-- Membership in the slot-address list. -/
theorem mem_slotAddrs {a mem os n : Nat} :
    a ∈ slotAddrs mem os n ↔ ∃ i, i < n ∧ a = mem + i * os := by
  unfold slotAddrs
  simp only [List.mem_map, List.mem_range]
  constructor
  · rintro ⟨i, hi, rfl⟩
    exact ⟨i, hi, rfl⟩
  · rintro ⟨i, hi, rfl⟩
    exact ⟨i, hi, rfl⟩

/-- Slot addresses are distinct (positive object size). -/
theorem slotAddrs_nodup {mem os n : Nat} (hos : 0 < os) :
    (slotAddrs mem os n).Nodup := by
  unfold slotAddrs
  refine List.Nodup.map ?_ (List.nodup_range n)
  intro i j hij
  have h2 : mem + i * os = mem + j * os := hij
  have h3 : i * os = j * os := by omega
  exact Nat.eq_of_mul_eq_mul_right hos h3

/-- Every slot of a slab lies inside the slab's frame range. -/
theorem slot_in_range {a mem os n : Nat} (hos : 0 < os)
    (hfit : os * n ≤ PGSIZE) (ha : a ∈ slotAddrs mem os n) :
    mem ≤ a ∧ a < mem + PGSIZE := by
  rcases mem_slotAddrs.1 ha with ⟨i, hi, rfl⟩
  have h1 : (i + 1) * os ≤ n * os := Nat.mul_le_mul_right os hi
  have hs : (i + 1) * os = i * os + os := Nat.succ_mul i os
  have h2 : n * os = os * n := Nat.mul_comm n os
  omega

/-- Number of slots. -/
theorem slotAddrs_length {mem os n : Nat} :
    (slotAddrs mem os n).length = n := by
  unfold slotAddrs
  rw [List.length_map, List.length_range]

/-- Replacing a slab never changes the list of frame addresses. -/
theorem mems_update_slab (l : List SlabHdr) (s : SlabHdr) :
    (update_slab l s).map SlabHdr.mem = l.map SlabHdr.mem := by
  unfold update_slab
  rw [List.map_map]
  apply List.map_congr_left
  intro x _
  by_cases hx : x.mem = s.mem
  · simp [hx]
  · simp [hx]

/-- If no list entry carries the slab's address, update_slab is a no-op. -/
theorem update_slab_not_mem {l : List SlabHdr} {s : SlabHdr}
    (h : ∀ x ∈ l, x.mem ≠ s.mem) : update_slab l s = l := by
  unfold update_slab
  conv_rhs => rw [← List.map_id l]
  apply List.map_congr_left
  intro x hx
  simp [h x hx]

/-- Every entry of an updated list is the replacement or an untouched entry
with a different frame address. -/
theorem mem_update_slab_cases {l : List SlabHdr} {s x : SlabHdr}
    (h : x ∈ update_slab l s) : x = s ∨ (x ∈ l ∧ x.mem ≠ s.mem) := by
  unfold update_slab at h
  rcases List.mem_map.1 h with ⟨y, hy, hxy⟩
  by_cases hym : y.mem = s.mem
  · rw [if_pos hym] at hxy
    exact Or.inl hxy.symm
  · rw [if_neg hym] at hxy
    subst hxy
    exact Or.inr ⟨hy, hym⟩

/-- Removing a slab only drops entries. -/
theorem mem_slab_remove_sub {l : List SlabHdr} {s x : SlabHdr}
    (h : x ∈ slab_remove l s) : x ∈ l := by
  induction l with
  | nil => simp [slab_remove] at h
  | cons y ys ih =>
    unfold slab_remove at h
    by_cases hym : y.mem = s.mem
    · rw [if_pos hym] at h
      exact List.mem_cons_of_mem _ h
    · rw [if_neg hym] at h
      rcases List.mem_cons.1 h with rfl | h
      · exact List.mem_cons_self _ _
      · exact List.mem_cons_of_mem _ (ih h)

/-- If no entry carries the slab's address, slab_remove is a no-op. -/
theorem slab_remove_not_mem {l : List SlabHdr} {s : SlabHdr}
    (h : ∀ x ∈ l, x.mem ≠ s.mem) : slab_remove l s = l := by
  induction l with
  | nil => rfl
  | cons y ys ih =>
    unfold slab_remove
    rw [if_neg (h y (List.mem_cons_self _ _))]
    rw [ih (fun x hx => h x (List.mem_cons_of_mem _ hx))]

/-- After removing a slab from a list with pairwise-distinct addresses that
does hold an entry with the slab's address, every remaining entry is an
original one with a different address. -/
theorem mem_slab_remove_ne {l : List SlabHdr} {s x : SlabHdr}
    (hnd : (l.map SlabHdr.mem).Nodup)
    (hs : ∃ y ∈ l, y.mem = s.mem)
    (h : x ∈ slab_remove l s) : x ∈ l ∧ x.mem ≠ s.mem := by
  induction l with
  | nil => simp [slab_remove] at h
  | cons z zs ih =>
    rw [List.map_cons, List.nodup_cons] at hnd
    unfold slab_remove at h
    by_cases hzm : z.mem = s.mem
    · rw [if_pos hzm] at h
      refine ⟨List.mem_cons_of_mem _ h, ?_⟩
      intro hxm
      apply hnd.1
      rw [hzm, ← hxm]
      exact List.mem_map_of_mem SlabHdr.mem h
    · rw [if_neg hzm] at h
      rcases List.mem_cons.1 h with rfl | h
      · exact ⟨List.mem_cons_self _ _, hzm⟩
      · rcases hs with ⟨y, hy, hym⟩
        rcases List.mem_cons.1 hy with rfl | hy
        · exact absurd hym hzm
        · rcases ih hnd.2 ⟨y, hy, hym⟩ h with ⟨h1, h2⟩
          exact ⟨List.mem_cons_of_mem _ h1, h2⟩

/-- Removing an entry that is present moves its address out of the address
list, up to permutation. -/
theorem mems_remove_perm {l : List SlabHdr} {s x : SlabHdr}
    (hx : x ∈ l) (hxm : x.mem = s.mem) :
    (l.map SlabHdr.mem).Perm (s.mem :: (slab_remove l s).map SlabHdr.mem) := by
  induction l with
  | nil => cases hx
  | cons y ys ih =>
    unfold slab_remove
    by_cases hym : y.mem = s.mem
    · rw [if_pos hym, List.map_cons, hym]
    · rw [if_neg hym, List.map_cons, List.map_cons]
      rcases List.mem_cons.1 hx with rfl | hx
      · exact absurd hxm hym
      · exact ((ih hx).cons y.mem).trans
          (List.Perm.swap s.mem y.mem ((slab_remove ys s).map SlabHdr.mem))

/-- Two entries of a list with pairwise-distinct addresses that share an
address are the same entry. -/
theorem mems_nodup_unique {l : List SlabHdr} {x y : SlabHdr}
    (hnd : (l.map SlabHdr.mem).Nodup)
    (hx : x ∈ l) (hy : y ∈ l) (hxy : x.mem = y.mem) : x = y := by
  induction l with
  | nil => cases hx
  | cons z zs ih =>
    rw [List.map_cons, List.nodup_cons] at hnd
    rcases List.mem_cons.1 hx with hxz | hx2
    · rcases List.mem_cons.1 hy with hyz | hy2
      · rw [hxz, hyz]
      · exfalso
        apply hnd.1
        rw [← hxz, hxy]
        exact List.mem_map_of_mem SlabHdr.mem hy2
    · rcases List.mem_cons.1 hy with hyz | hy2
      · exfalso
        apply hnd.1
        rw [← hyz, ← hxy]
        exact List.mem_map_of_mem SlabHdr.mem hx2
      · exact ih hnd.2 hx2 hy2


/-- Evaluating the threadFreelist write loop away from every written slot. -/
theorem foldl_write_not_mem (page os N : Nat) (l : List Nat) (h : Nat → Nat)
    (a : Nat) (ha : ∀ i ∈ l, a ≠ page + i * os) :
    (l.foldl (fun h i => fun b =>
      if b = page + i * os then (if i = N - 1 then 0 else page + (i + 1) * os)
      else h b) h) a = h a := by
  induction l generalizing h with
  | nil => rfl
  | cons j l ih =>
    rw [List.foldl_cons]
    rw [ih _ (fun i hi => ha i (List.mem_cons_of_mem _ hi))]
    exact if_neg (ha j (List.mem_cons_self _ _))

/-- Evaluating the threadFreelist write loop at a written slot. -/
theorem foldl_write_mem (page os N : Nat) (l : List Nat) (h : Nat → Nat)
    (i : Nat) (hos : 0 < os) (hi : i ∈ l) (hnd : l.Nodup) :
    (l.foldl (fun h i => fun b =>
      if b = page + i * os then (if i = N - 1 then 0 else page + (i + 1) * os)
      else h b) h) (page + i * os) =
      (if i = N - 1 then 0 else page + (i + 1) * os) := by
  induction l generalizing h with
  | nil => cases hi
  | cons j l ih =>
    rw [List.foldl_cons]
    rcases List.mem_cons.1 hi with rfl | hi2
    · rw [foldl_write_not_mem]
      · exact if_pos rfl
      · intro k hk heq
        rw [List.nodup_cons] at hnd
        have hik : i * os = k * os := by omega
        have hik2 : i = k := Nat.eq_of_mul_eq_mul_right hos hik
        exact hnd.1 (hik2 ▸ hk)
    · rw [List.nodup_cons] at hnd
      exact ih _ hi2 hnd.2

/-- threadFreelist leaves every non-slot address untouched. -/
theorem threadFreelist_not_slot {page os n : Nat} {h : Nat → Nat} {a : Nat}
    (ha : ∀ i, i < n → a ≠ page + i * os) :
    threadFreelist page os n h a = h a := by
  unfold threadFreelist
  exact foldl_write_not_mem page os n _ h a (fun i hi => ha i (List.mem_range.1 hi))

/-- threadFreelist stores, at slot i, the address of slot i+1 (null at the
last slot). -/
theorem threadFreelist_slot {page os n i : Nat} {h : Nat → Nat}
    (hos : 0 < os) (hi : i < n) :
    threadFreelist page os n h (page + i * os) =
      (if i = n - 1 then 0 else page + (i + 1) * os) := by
  unfold threadFreelist
  exact foldl_write_mem page os n _ h i hos (List.mem_range.2 hi) (List.nodup_range n)

/-- threadFreelist only writes inside the slab's frame range. -/
theorem threadFreelist_outside {page os n : Nat} {h : Nat → Nat} {a : Nat}
    (hos : 0 < os) (hfit : os * n ≤ PGSIZE)
    (ha : a < page ∨ page + PGSIZE ≤ a) :
    threadFreelist page os n h a = h a := by
  apply threadFreelist_not_slot
  intro i hi heq
  have := slot_in_range hos hfit (mem_slotAddrs.2 ⟨i, hi, heq⟩)
  omega

/-- memsetWords leaves every address outside the range untouched. -/
theorem memsetWords_outside {base len val a : Nat} {h : Nat → Nat}
    (ha : a < base ∨ base + len ≤ a) :
    memsetWords base len val h a = h a := by
  unfold memsetWords
  rw [if_neg (by omega)]

/-- The freshly threaded free list of a new slab walks exactly the slot
suffix starting at slot k. -/
theorem freshChain {page os n : Nat} {h : Nat → Nat}
    (hos : 0 < os) (hpage : 0 < page) :
    ∀ fuel k, 0 < fuel → k + fuel = n →
      chainOkB (threadFreelist page os n h) fuel (page + k * os) = true ∧
      chainL (threadFreelist page os n h) fuel (page + k * os) =
        (List.range' k fuel).map (fun i => page + i * os) := by
  intro fuel
  induction fuel with
  | zero => intro k h0; omega
  | succ fuel ih =>
    intro k _ hkn
    have hk : k < n := by omega
    have hslot := @threadFreelist_slot page os n k h hos hk
    have hp0 : page + k * os ≠ 0 := by omega
    by_cases hf : fuel = 0
    · subst hf
      have hklast : k = n - 1 := by omega
      constructor
      · unfold chainOkB
        simp only [Bool.and_eq_true, bne_iff_ne, ne_eq]
        refine ⟨hp0, ?_⟩
        rw [hslot, if_pos hklast]
        rfl
      · rw [chainL_succ hp0]
        rfl
    · have hfpos : 0 < fuel := Nat.pos_of_ne_zero hf
      have hkne : ¬ (k = n - 1) := by omega
      have hH : threadFreelist page os n h (page + k * os) = page + (k + 1) * os := by
        rw [hslot, if_neg hkne]
      rcases ih (k + 1) hfpos (by omega) with ⟨hok, hL⟩
      constructor
      · unfold chainOkB
        simp only [Bool.and_eq_true, bne_iff_ne, ne_eq]
        refine ⟨hp0, ?_⟩
        rw [hH]
        exact hok
      · rw [chainL_succ hp0, hH, hL]
        rfl

/-- The complete fresh free list of a new slab is exactly its slot list. -/
theorem freshChain_full {page os n : Nat} {h : Nat → Nat}
    (hos : 0 < os) (hpage : 0 < page) (hn : 0 < n) :
    chainOkB (threadFreelist page os n h) n page = true ∧
    chainL (threadFreelist page os n h) n page = slotAddrs page os n := by
  have hmain := freshChain (h := h) hos hpage n 0 hn (Nat.zero_add n)
  have h0 : page + 0 * os = page := by simp
  rw [h0] at hmain
  refine ⟨hmain.1, ?_⟩
  rw [hmain.2]
  unfold slotAddrs
  rw [List.range_eq_range']


/-- PGSIZE as a literal. -/
theorem PGSIZE_eq : PGSIZE = 4096 := rfl

/-- The uint decrement acts as an exact decrement on small counters. -/
theorem udec_small {n : Nat} (h1 : 0 < n) (h2 : n ≤ PGSIZE) :
    udec n = n - 1 := by
  have hP : PGSIZE = 4096 := rfl
  have hU : U32 = 4294967296 := by norm_num [U32]
  unfold udec
  rw [hU]
  omega

/-- The uint increment acts as an exact increment on small counters. -/
theorem uinc_small {n : Nat} (h2 : n ≤ PGSIZE) :
    uinc n = n + 1 := by
  have hP : PGSIZE = 4096 := rfl
  have hU : U32 = 4294967296 := by norm_num [U32]
  unfold uinc
  rw [hU]
  omega

/-- A slab's counter is bounded by the page capacity. -/
theorem nr_free_le_PGSIZE {h : Nat → Nat} {os : Nat} {s : SlabHdr}
    (hwf : slabWF h os s) : s.nr_free ≤ PGSIZE := by
  obtain ⟨_, hno, hle, _⟩ := hwf
  have := Nat.div_le_self PGSIZE os
  omega

/-- Popping the free-list head of a slab with a free object preserves the
slab's well-formedness; the counter decrement is exact. -/
theorem slabWF_pop {h : Nat → Nat} {os : Nat} {s : SlabHdr}
    (hwf : slabWF h os s) (hpos : 0 < s.nr_free) :
    slabWF h os { s with freelist := h s.freelist, nr_free := udec s.nr_free } ∧
    udec s.nr_free = s.nr_free - 1 := by
  have hbound : s.nr_free ≤ PGSIZE := nr_free_le_PGSIZE hwf
  have hudec : udec s.nr_free = s.nr_free - 1 := udec_small hpos hbound
  obtain ⟨hm, hno, hle, hok, hnd, hsub⟩ := hwf
  obtain ⟨k, hk⟩ : ∃ k, s.nr_free = k + 1 := ⟨s.nr_free - 1, by omega⟩
  rw [hk] at hok hnd hsub
  rcases chainOkB_succ hok with ⟨hp0, hok'⟩
  have hL := chainL_succ (h := h) (n := k) hp0
  rw [hL] at hnd hsub
  refine ⟨⟨hm, hno, ?_, ?_, ?_, ?_⟩, hudec⟩
  · show udec s.nr_free ≤ s.nr_objs
    rw [hudec]
    omega
  · show chainOkB h (udec s.nr_free) (h s.freelist) = true
    rw [hudec, hk]
    simpa using hok'
  · show (chainL h (udec s.nr_free) (h s.freelist)).Nodup
    rw [hudec, hk]
    simpa using hnd.of_cons
  · intro a ha
    rw [hudec, hk] at ha
    exact hsub a (List.mem_cons_of_mem _ (by simpa using ha))

/-- Pushing an allocated object of a slab onto the slab's free list
preserves the slab's well-formedness; the counter increment is exact and the
new walk is the object consed onto the old walk. -/
theorem slabWF_push {h : Nat → Nat} {os : Nat} {s : SlabHdr} {obj : Nat}
    (hwf : slabWF h os s)
    (hobj : obj ∈ slotAddrs s.mem os s.nr_objs)
    (hnotin : obj ∉ chainL h s.nr_free s.freelist)
    (hcap : s.nr_free < s.nr_objs) :
    slabWF (fun a => if a = obj then s.freelist else h a) os
      { s with freelist := obj, nr_free := uinc s.nr_free } ∧
    uinc s.nr_free = s.nr_free + 1 ∧
    chainL (fun a => if a = obj then s.freelist else h a)
      (uinc s.nr_free) obj = obj :: chainL h s.nr_free s.freelist := by
  have hbound : s.nr_free ≤ PGSIZE := nr_free_le_PGSIZE hwf
  have huinc : uinc s.nr_free = s.nr_free + 1 := uinc_small hbound
  obtain ⟨hm, hno, hle, hok, hnd, hsub⟩ := hwf
  have hobj0 : obj ≠ 0 := by
    rcases mem_slotAddrs.1 hobj with ⟨i, hi, rfl⟩
    have : 0 < s.mem := Nat.pos_of_ne_zero hm
    omega
  have hagree : ∀ a ∈ chainL h s.nr_free s.freelist,
      (fun a => if a = obj then s.freelist else h a) a = h a := by
    intro a ha
    have : a ≠ obj := fun he => hnotin (he ▸ ha)
    simp [this]
  rcases chain_congr hok hagree with ⟨hok2, hL2⟩
  have hifobj : (if obj = obj then s.freelist else h obj) = s.freelist := if_pos rfl
  have hLnew : chainL (fun a => if a = obj then s.freelist else h a)
      (uinc s.nr_free) obj = obj :: chainL h s.nr_free s.freelist := by
    rw [huinc, chainL_succ hobj0, hifobj, hL2]
  refine ⟨⟨hm, hno, ?_, ?_, ?_, ?_⟩, huinc, hLnew⟩
  · show uinc s.nr_free ≤ s.nr_objs
    rw [huinc]
    omega
  · show chainOkB _ (uinc s.nr_free) obj = true
    rw [huinc]
    unfold chainOkB
    simp only [Bool.and_eq_true, bne_iff_ne, ne_eq]
    exact ⟨hobj0, by simp only [if_true]; exact hok2⟩
  · show (chainL _ (uinc s.nr_free) obj).Nodup
    rw [hLnew]
    exact List.nodup_cons.2 ⟨hnotin, hnd⟩
  · intro a ha
    rw [hLnew] at ha
    rcases List.mem_cons.1 ha with rfl | ha
    · exact hobj
    · exact hsub a ha

/-- A heap change outside a slab's frame range preserves that slab's
well-formedness. -/
theorem slabWF_other {h h' : Nat → Nat} {os : Nat} {t : SlabHdr}
    (hwf : slabWF h os t) (hos : 0 < os)
    (hfit : os * t.nr_objs ≤ PGSIZE)
    (hagree : ∀ a, t.mem ≤ a → a < t.mem + PGSIZE → h' a = h a) :
    slabWF h' os t := by
  obtain ⟨hm, hno, hle, hok, hnd, hsub⟩ := hwf
  have hagree' : ∀ a ∈ chainL h t.nr_free t.freelist, h' a = h a := by
    intro a ha
    rcases slot_in_range hos hfit (hsub a ha) with ⟨h1, h2⟩
    exact hagree a h1 h2
  rcases chain_congr hok hagree' with ⟨hok2, hL2⟩
  exact ⟨hm, hno, hle, hok2, by rw [hL2]; exact hnd, by rw [hL2]; exact hsub⟩

/-- In a completely free slab the free-list walk visits every slot: no slot
is currently allocated. -/
theorem chain_covers {h : Nat → Nat} {os : Nat} {s : SlabHdr}
    (hwf : slabWF h os s) (hos : 0 < os) (hfull : s.nr_free = s.nr_objs) :
    ∀ a ∈ slotAddrs s.mem os s.nr_objs, a ∈ chainL h s.nr_free s.freelist := by
  obtain ⟨hm, hno, hle, hok, hnd, hsub⟩ := hwf
  have hlen : (chainL h s.nr_free s.freelist).length = s.nr_objs := by
    rw [chainL_length hok, hfull]
  have hslen : (slotAddrs s.mem os s.nr_objs).length = s.nr_objs := slotAddrs_length
  have hsnd : (slotAddrs s.mem os s.nr_objs).Nodup := slotAddrs_nodup hos
  intro a ha
  have hsubF : (chainL h s.nr_free s.freelist).toFinset ⊆
      (slotAddrs s.mem os s.nr_objs).toFinset := by
    intro x hx
    rw [List.mem_toFinset] at hx ⊢
    exact hsub x hx
  have hcard1 : (chainL h s.nr_free s.freelist).toFinset.card = s.nr_objs := by
    rw [List.toFinset_card_of_nodup hnd, hlen]
  have hcard2 : (slotAddrs s.mem os s.nr_objs).toFinset.card = s.nr_objs := by
    rw [List.toFinset_card_of_nodup hsnd, hslen]
  have heq : (chainL h s.nr_free s.freelist).toFinset =
      (slotAddrs s.mem os s.nr_objs).toFinset :=
    Finset.eq_of_subset_of_card_le hsubF (by omega)
  rw [← List.mem_toFinset, ← heq, List.mem_toFinset] at ha
  exact ha


/-- addrDisjoint is symmetric. -/
theorem addrDisjoint_symm : Symmetric addrDisjoint := by
  intro a b hab
  exact hab.symm

/-- Pairwise-disjoint addresses are distinct. -/
theorem nodup_of_pairwise_disjoint {l : List Nat}
    (h : l.Pairwise addrDisjoint) : l.Nodup := by
  refine h.imp ?_
  intro a b hab
  unfold addrDisjoint at hab
  have hP : PGSIZE = 4096 := rfl
  omega

/-- Replacing the head of a list whose tail avoids the head's address. -/
theorem update_slab_cons {s s' : SlabHdr} {rest : List SlabHdr}
    (hm : s.mem = s'.mem) (hrest : ∀ x ∈ rest, x.mem ≠ s'.mem) :
    update_slab (s :: rest) s' = s' :: rest := by
  have hid := update_slab_not_mem (l := rest) (s := s') hrest
  unfold update_slab at hid ⊢
  rw [List.map_cons, if_pos hm, hid]

/-- Removing the head slab. -/
theorem slab_remove_cons_self {s' : SlabHdr} {rest : List SlabHdr} :
    slab_remove (s' :: rest) s' = rest := by
  unfold slab_remove
  rw [if_pos rfl]

/-- slab_find fails exactly when no slab's frame range contains obj. -/
theorem slab_find_none_iff (l : List SlabHdr) (obj : Nat) :
    slab_find l obj = none ↔
      ∀ s ∈ l, ¬ (s.mem ≤ obj ∧ obj < s.mem + PGSIZE) := by
  induction l with
  | nil => simp [slab_find]
  | cons x xs ih =>
    by_cases hx : x.mem ≤ obj ∧ obj < x.mem + PGSIZE
    · simp [slab_find, hx]
    · simp only [slab_find, if_neg hx, ih, List.mem_cons]
      constructor
      · intro hall s hs
        rcases hs with rfl | hs
        · exact hx
        · exact hall s hs
      · intro hall s hs
        exact hall s (Or.inr hs)

/-- A successful slab_find returns a member of the list whose frame range
contains obj. -/
theorem slab_find_some (l : List SlabHdr) (obj : Nat) (s : SlabHdr)
    (h : slab_find l obj = some s) :
    s ∈ l ∧ s.mem ≤ obj ∧ obj < s.mem + PGSIZE := by
  induction l with
  | nil => simp [slab_find] at h
  | cons x xs ih =>
    by_cases hx : x.mem ≤ obj ∧ obj < x.mem + PGSIZE
    · simp only [slab_find, if_pos hx, Option.some.injEq] at h
      subst h
      exact ⟨List.mem_cons_self x xs, hx⟩
    · simp only [slab_find, if_neg hx] at h
      rcases ih h with ⟨h1, h2⟩
      exact ⟨List.mem_cons_of_mem x h1, h2⟩

/-- find_owner fails exactly when no slab of the cache contains obj. -/
theorem find_owner_none_iff (c : KmemCache) (obj : Nat) :
    find_owner c obj = none ↔
      ∀ s ∈ allSlabs c, ¬ (s.mem ≤ obj ∧ obj < s.mem + PGSIZE) := by
  unfold find_owner
  cases h1 : slab_find c.partial_slabs obj with
  | some s =>
    simp only []
    constructor
    · intro hc; exact absurd hc (by simp)
    · intro hall
      rcases slab_find_some _ _ _ h1 with ⟨hm, hr⟩
      exact absurd hr (hall s (by simp [allSlabs, hm]))
  | none =>
    cases h2 : slab_find c.full_slabs obj with
    | some s =>
      simp only []
      constructor
      · intro hc; exact absurd hc (by simp)
      · intro hall
        rcases slab_find_some _ _ _ h2 with ⟨hm, hr⟩
        exact absurd hr (hall s (by simp [allSlabs, hm]))
    | none =>
      rw [slab_find_none_iff] at h1 h2
      rw [slab_find_none_iff]
      constructor
      · intro h3 s hs
        rcases List.mem_append.1 hs with hs1 | hs1
        · rcases List.mem_append.1 hs1 with hs2 | hs2
          · exact h1 s hs2
          · exact h2 s hs2
        · exact h3 s hs1
      · intro hall s hs
        exact hall s (by simp [allSlabs, hs])

/-- A successful find_owner returns a slab of the cache whose frame range
contains obj, together with the list it was found on. -/
theorem find_owner_some (c : KmemCache) (obj : Nat) (s : SlabHdr)
    (h : find_owner c obj = some s) :
    (s ∈ c.partial_slabs ∨ s ∈ c.full_slabs ∨ s ∈ c.empty_slabs) ∧
      s.mem ≤ obj ∧ obj < s.mem + PGSIZE := by
  unfold find_owner at h
  cases h1 : slab_find c.partial_slabs obj with
  | some t =>
    rw [h1] at h
    cases h
    rcases slab_find_some _ _ _ h1 with ⟨hm, hr⟩
    exact ⟨Or.inl hm, hr⟩
  | none =>
    rw [h1] at h
    cases h2 : slab_find c.full_slabs obj with
    | some t =>
      rw [h2] at h
      cases h
      rcases slab_find_some _ _ _ h2 with ⟨hm, hr⟩
      exact ⟨Or.inr (Or.inl hm), hr⟩
    | none =>
      rw [h2] at h
      rcases slab_find_some _ _ _ h with ⟨hm, hr⟩
      exact ⟨Or.inr (Or.inr hm), hr⟩

/-- Replacing a slab in a list that holds a slab with the same mem address
puts the replacement in the list. -/
theorem mem_update_slab (l : List SlabHdr) (s s' : SlabHdr)
    (h : s ∈ l) (hm : s.mem = s'.mem) : s' ∈ update_slab l s' := by
  have hmap := List.mem_map_of_mem (fun x => if x.mem = s'.mem then s' else x) h
  simpa [update_slab, hm] using hmap


/-- kmem_cache_alloc preserves the slab-engine invariant. -/
theorem inv_alloc (st : SlabState) (hinv : Inv st) :
    Inv (kmem_cache_alloc st).2 := by
  obtain ⟨hgeom, hwf, hdisj, hpart, hfull, hempty, hframes, hfdisj⟩ := hinv
  have hP : PGSIZE = 4096 := rfl
  have hos : 0 < st.cache.objsize := by
    rcases Nat.eq_zero_or_pos st.cache.objsize with h0 | h0
    · rw [h0] at hgeom
      simp [Nat.div_zero] at hgeom
    · exact h0
  have hnodup : (memsOf st.cache).Nodup := nodup_of_pairwise_disjoint hdisj
  cases hp : st.cache.partial_slabs with
  | cons s rest =>
    have hsP : s ∈ st.cache.partial_slabs := by rw [hp]; exact List.mem_cons_self _ _
    have hsAll : s ∈ allSlabs st.cache := by
      unfold allSlabs
      exact List.mem_append_left _ (List.mem_append_left _ hsP)
    have hswf := hwf s hsAll
    have hsc := hpart s hsP
    obtain ⟨hswf', hudec⟩ := slabWF_pop hswf hsc.1
    set s' : SlabHdr :=
      { s with freelist := st.heap s.freelist, nr_free := udec s.nr_free } with hs2def
    have hmemsold : memsOf st.cache =
        s.mem :: (rest.map SlabHdr.mem ++
          (st.cache.full_slabs.map SlabHdr.mem ++
            st.cache.empty_slabs.map SlabHdr.mem)) := by
      simp [memsOf, allSlabs, hp]
    have hnodup2 := hnodup
    rw [hmemsold, List.nodup_cons] at hnodup2
    have hrest_ne : ∀ x ∈ rest, x.mem ≠ s'.mem := by
      intro x hx hxm
      apply hnodup2.1
      rw [← hxm]
      exact List.mem_append_left _ (List.mem_map_of_mem SlabHdr.mem hx)
    have hupd : update_slab (s :: rest) s' = s' :: rest :=
      update_slab_cons rfl hrest_ne
    by_cases hz : s'.nr_free = 0
    · -- the popped slab became full and moves to the full list
      have hres : (kmem_cache_alloc st).2 =
          { st with cache := { st.cache with
              partial_slabs := rest,
              full_slabs := s' :: st.cache.full_slabs } } := by
        simp only [kmem_cache_alloc, hp, hupd, if_pos hz, slab_remove_cons_self]
      rw [hres]
      have hmemsnew : memsOf { st.cache with
          partial_slabs := rest,
          full_slabs := s' :: st.cache.full_slabs } =
          rest.map SlabHdr.mem ++
            (s.mem :: (st.cache.full_slabs.map SlabHdr.mem ++
              st.cache.empty_slabs.map SlabHdr.mem)) := by
        simp [memsOf, allSlabs]
      have hperm : (memsOf { st.cache with
          partial_slabs := rest,
          full_slabs := s' :: st.cache.full_slabs }).Perm (memsOf st.cache) := by
        rw [hmemsnew, hmemsold]
        exact List.perm_middle
      refine ⟨hgeom, ?_, ?_, ?_, ?_, ?_, ?_, hfdisj⟩
      · intro t ht
        simp only [allSlabs, List.mem_append, List.mem_cons] at ht
        rcases ht with (ht | ht | ht) | ht
        · exact hwf t (by
            unfold allSlabs
            refine List.mem_append_left _ (List.mem_append_left _ ?_)
            rw [hp]
            exact List.mem_cons_of_mem _ ht)
        · rw [ht]
          exact hswf'
        · exact hwf t (by
            unfold allSlabs
            exact List.mem_append_left _ (List.mem_append_right _ ht))
        · exact hwf t (by
            unfold allSlabs
            exact List.mem_append_right _ ht)
      · exact (hperm.pairwise_iff (fun hab => Or.symm hab)).2 hdisj
      · intro t ht
        exact hpart t (by rw [hp]; exact List.mem_cons_of_mem _ ht)
      · intro t ht
        have ht2 : t ∈ s' :: st.cache.full_slabs := ht
        rcases List.mem_cons.1 ht2 with rfl | ht3
        · exact hz
        · exact hfull t ht3
      · exact hempty
      · intro f hf
        refine ⟨(hframes f hf).1, ?_⟩
        intro m hm
        exact (hframes f hf).2 m (hperm.mem_iff.1 hm)
    · -- the popped slab stays partial
      have hres : (kmem_cache_alloc st).2 =
          { st with cache := { st.cache with
              partial_slabs := s' :: rest } } := by
        simp only [kmem_cache_alloc, hp, hupd, if_neg hz]
      rw [hres]
      have hmemsnew : memsOf { st.cache with partial_slabs := s' :: rest } =
          memsOf st.cache := by
        rw [hmemsold]
        simp [memsOf, allSlabs]
      refine ⟨hgeom, ?_, ?_, ?_, ?_, ?_, ?_, hfdisj⟩
      · intro t ht
        have ht2 : t ∈ (s' :: rest) ++ st.cache.full_slabs ++ st.cache.empty_slabs := ht
        rcases List.mem_append.1 ht2 with ht3 | ht3
        · rcases List.mem_append.1 ht3 with ht4 | ht4
          · rcases List.mem_cons.1 ht4 with rfl | ht5
            · exact hswf'
            · exact hwf t (by
                unfold allSlabs
                refine List.mem_append_left _ (List.mem_append_left _ ?_)
                rw [hp]
                exact List.mem_cons_of_mem _ ht5)
          · exact hwf t (by
              unfold allSlabs
              exact List.mem_append_left _ (List.mem_append_right _ ht4))
        · exact hwf t (by
            unfold allSlabs
            exact List.mem_append_right _ ht3)
      · rw [hmemsnew]
        exact hdisj
      · intro t ht
        have ht2 : t ∈ s' :: rest := ht
        rcases List.mem_cons.1 ht2 with rfl | ht3
        · constructor
          · exact Nat.pos_of_ne_zero hz
          · show s'.nr_free < s'.nr_objs
            have h1 : s'.nr_free = s.nr_free - 1 := hudec
            have h2 : s'.nr_objs = s.nr_objs := rfl
            have h3 := hsc.2
            omega
        · exact hpart t (by rw [hp]; exact List.mem_cons_of_mem _ ht3)
      · exact hfull
      · exact hempty
      · intro f hf
        refine ⟨(hframes f hf).1, ?_⟩
        intro m hm
        rw [hmemsnew] at hm
        exact (hframes f hf).2 m hm
  | nil =>
    cases he : st.cache.empty_slabs with
    | cons s rest =>
      have hsE : s ∈ st.cache.empty_slabs := by rw [he]; exact List.mem_cons_self _ _
      have hsAll : s ∈ allSlabs st.cache := by
        unfold allSlabs
        exact List.mem_append_right _ hsE
      have hswf := hwf s hsAll
      have hse := hempty s hsE
      have hno : s.nr_objs = PGSIZE / st.cache.objsize := hswf.2.1
      have hN2 : 2 ≤ s.nr_objs := by omega
      have hposf : 0 < s.nr_free := by omega
      obtain ⟨hswf', hudec⟩ := slabWF_pop hswf hposf
      set s' : SlabHdr :=
        { s with freelist := st.heap s.freelist, nr_free := udec s.nr_free } with hs2def
      have hmemsold : memsOf st.cache =
          st.cache.full_slabs.map SlabHdr.mem ++ (s.mem :: rest.map SlabHdr.mem) := by
        simp [memsOf, allSlabs, hp, he]
      have hnodup2 := hnodup
      rw [hmemsold] at hnodup2
      have htailnd := hnodup2.of_append_right
      rw [List.nodup_cons] at htailnd
      have hrest_ne : ∀ x ∈ rest, x.mem ≠ s'.mem := by
        intro x hx hxm
        apply htailnd.1
        rw [← hxm]
        exact List.mem_map_of_mem SlabHdr.mem hx
      have hupd : update_slab (s :: rest) s' = s' :: rest :=
        update_slab_cons rfl hrest_ne
      have hres : (kmem_cache_alloc st).2 =
          { st with cache := { st.cache with
              partial_slabs := [s'],
              empty_slabs := rest } } := by
        simp only [kmem_cache_alloc, hp, he, hupd, slab_remove_cons_self]
      rw [hres]
      have hmemsnew : memsOf { st.cache with
          partial_slabs := [s'], empty_slabs := rest } =
          s.mem :: (st.cache.full_slabs.map SlabHdr.mem ++ rest.map SlabHdr.mem) := by
        simp [memsOf, allSlabs]
      have hperm : (memsOf { st.cache with
          partial_slabs := [s'], empty_slabs := rest }).Perm (memsOf st.cache) := by
        rw [hmemsnew, hmemsold]
        exact List.perm_middle.symm
      refine ⟨hgeom, ?_, ?_, ?_, ?_, ?_, ?_, hfdisj⟩
      · intro t ht
        have ht2 : t ∈ [s'] ++ st.cache.full_slabs ++ rest := ht
        rcases List.mem_append.1 ht2 with ht3 | ht3
        · rcases List.mem_append.1 ht3 with ht4 | ht4
          · rcases List.mem_cons.1 ht4 with rfl | ht5
            · exact hswf'
            · cases ht5
          · exact hwf t (by
              unfold allSlabs
              exact List.mem_append_left _ (List.mem_append_right _ ht4))
        · exact hwf t (by
            unfold allSlabs
            refine List.mem_append_right _ ?_
            rw [he]
            exact List.mem_cons_of_mem _ ht3)
      · exact (hperm.pairwise_iff (fun hab => Or.symm hab)).2 hdisj
      · intro t ht
        have ht2 : t ∈ [s'] := ht
        rcases List.mem_cons.1 ht2 with rfl | ht3
        · constructor
          · show 0 < s'.nr_free
            have h1 : s'.nr_free = s.nr_free - 1 := hudec
            omega
          · show s'.nr_free < s'.nr_objs
            have h1 : s'.nr_free = s.nr_free - 1 := hudec
            have h2 : s'.nr_objs = s.nr_objs := rfl
            omega
        · cases ht3
      · exact hfull
      · intro t ht
        have ht2 : t ∈ rest := ht
        exact hempty t (by rw [he]; exact List.mem_cons_of_mem _ ht2)
      · intro f hf
        refine ⟨(hframes f hf).1, ?_⟩
        intro m hm
        exact (hframes f hf).2 m (hperm.mem_iff.1 hm)
    | nil =>
      by_cases hbig : PGSIZE < st.cache.objsize
      · have hc : slab_create st.cache st.heap st.frames = none := by
          unfold slab_create
          rw [if_pos hbig]
        have hres : (kmem_cache_alloc st).2 = st := by
          simp only [kmem_cache_alloc, hp, he, hc]
        rw [hres]
        exact ⟨hgeom, hwf, hdisj, hpart, hfull, hempty, hframes, hfdisj⟩
      · cases hfr : st.frames with
        | nil =>
          have hc : slab_create st.cache st.heap st.frames = none := by
            unfold slab_create
            rw [if_neg hbig, hfr]
          have hres : (kmem_cache_alloc st).2 = st := by
            simp only [kmem_cache_alloc, hp, he, hc]
          rw [hres]
          exact ⟨hgeom, hwf, hdisj, hpart, hfull, hempty, hframes, hfdisj⟩
        | cons page rest2 =>
          cases rest2 with
          | nil =>
            have hc : slab_create st.cache st.heap st.frames = none := by
              unfold slab_create
              rw [if_neg hbig, hfr]
            have hres : (kmem_cache_alloc st).2 = st := by
              simp only [kmem_cache_alloc, hp, he, hc]
            rw [hres]
            exact ⟨hgeom, hwf, hdisj, hpart, hfull, hempty, hframes, hfdisj⟩
          | cons hdr rest' =>
            have hpageF : page ∈ st.frames := by
              rw [hfr]; exact List.mem_cons_self _ _
            have hpage0 : page ≠ 0 := (hframes page hpageF).1
            have hpagedis := (hframes page hpageF).2
            set os := st.cache.objsize with hos_def
            set N := PGSIZE / os with hN_def
            set H' := threadFreelist page os N
              (memsetWords page PGSIZE kallocPoisonWord st.heap) with hHdef
            have hc : slab_create st.cache st.heap st.frames =
                some ({ mem := page, nr_objs := N, nr_free := N,
                        freelist := page }, H', rest') := by
              unfold slab_create
              rw [if_neg hbig, hfr]
            have hN2 : 2 ≤ N := hgeom
            have hfresh := @freshChain_full page os N
              (memsetWords page PGSIZE kallocPoisonWord st.heap)
              hos (Nat.pos_of_ne_zero hpage0) (by omega)
            have hs0wf : slabWF H' os
                { mem := page, nr_objs := N, nr_free := N, freelist := page } := by
              refine ⟨hpage0, hN_def, Nat.le_refl N, ?_, ?_, ?_⟩
              · exact hfresh.1
              · rw [hfresh.2]
                exact slotAddrs_nodup hos
              · rw [hfresh.2]
                exact fun a ha => ha
            obtain ⟨hs0wf', hudec0⟩ := slabWF_pop hs0wf (by
              show 0 < N
              omega)
            have hres : (kmem_cache_alloc st).2 =
                { heap := H', frames := rest',
                  cache := { st.cache with partial_slabs :=
                    [({ mem := page, nr_objs := N, nr_free := udec N,
                        freelist := H' page } : SlabHdr)] } } := by
              simp only [kmem_cache_alloc, hp, he, hc]
            rw [hres]
            have hmemsnew : memsOf { st.cache with partial_slabs :=
                [({ mem := page, nr_objs := N, nr_free := udec N,
                    freelist := H' page } : SlabHdr)] } =
                page :: (st.cache.full_slabs.map SlabHdr.mem ++
                  st.cache.empty_slabs.map SlabHdr.mem) := by
              simp [memsOf, allSlabs]
            have hmemsold : memsOf st.cache =
                st.cache.full_slabs.map SlabHdr.mem ++
                  st.cache.empty_slabs.map SlabHdr.mem := by
              simp [memsOf, allSlabs, hp]
            have hagreeT : ∀ t : SlabHdr, t.mem ∈ memsOf st.cache →
                ∀ a, t.mem ≤ a → a < t.mem + PGSIZE → H' a = st.heap a := by
              intro t htm a h1 h2
              have hdis := hpagedis t.mem htm
              have haout : a < page ∨ page + PGSIZE ≤ a := by
                unfold addrDisjoint at hdis
                omega
              rw [hHdef]
              rw [threadFreelist_outside hos ?hfit haout]
              · exact memsetWords_outside haout
              case hfit =>
                rw [hN_def]
                calc os * (PGSIZE / os) = PGSIZE / os * os := Nat.mul_comm _ _
                  _ ≤ PGSIZE := Nat.div_mul_le_self _ _
            refine ⟨hgeom, ?_, ?_, ?_, ?_, ?_, ?_, ?_⟩
            · intro t ht
              have ht2 :
                  t ∈ [({ mem := page, nr_objs := N, nr_free := udec N, freelist := H' page } : SlabHdr)] ++ st.cache.full_slabs ++ st.cache.empty_slabs :=
                ht
              rcases List.mem_append.1 ht2 with ht3 | ht3
              · rcases List.mem_append.1 ht3 with ht4 | ht4
                · rcases List.mem_cons.1 ht4 with rfl | ht5
                  · exact hs0wf'
                  · cases ht5
                · have htAll : t ∈ allSlabs st.cache := by
                    unfold allSlabs
                    exact List.mem_append_left _ (List.mem_append_right _ ht4)
                  refine slabWF_other (hwf t htAll) hos ?_ ?_
                  · rw [(hwf t htAll).2.1]
                    calc os * (PGSIZE / os) = PGSIZE / os * os := Nat.mul_comm _ _
                      _ ≤ PGSIZE := Nat.div_mul_le_self _ _
                  · exact hagreeT t (List.mem_map_of_mem SlabHdr.mem
                      (by unfold allSlabs
                          exact List.mem_append_left _ (List.mem_append_right _ ht4)))
              · have htAll : t ∈ allSlabs st.cache := by
                  unfold allSlabs
                  exact List.mem_append_right _ ht3
                refine slabWF_other (hwf t htAll) hos ?_ ?_
                · rw [(hwf t htAll).2.1]
                  calc os * (PGSIZE / os) = PGSIZE / os * os := Nat.mul_comm _ _
                    _ ≤ PGSIZE := Nat.div_mul_le_self _ _
                · exact hagreeT t (List.mem_map_of_mem SlabHdr.mem htAll)
            · rw [hmemsnew]
              refine List.pairwise_cons.2 ⟨?_, ?_⟩
              · intro m hm
                exact hpagedis m (by rw [hmemsold]; exact hm)
              · have := hdisj
                rw [hmemsold] at this
                exact this
            · intro t ht
              have ht2 :
                  t ∈ [({ mem := page, nr_objs := N, nr_free := udec N, freelist := H' page } : SlabHdr)] :=
                ht
              rcases List.mem_cons.1 ht2 with rfl | ht3
              · constructor
                · show 0 < udec N
                  have h1 : udec N = N - 1 := hudec0
                  omega
                · show udec N < N
                  have h1 : udec N = N - 1 := hudec0
                  omega
              · cases ht3
            · exact hfull
            · exact hempty
            · intro f hf
              have hfF : f ∈ st.frames := by
                rw [hfr]
                exact List.mem_cons_of_mem _ (List.mem_cons_of_mem _ hf)
              refine ⟨(hframes f hfF).1, ?_⟩
              intro m hm
              rw [hmemsnew] at hm
              rcases List.mem_cons.1 hm with rfl | hm2
              · have hpf := hfdisj
                rw [hfr] at hpf
                have h1 := (List.pairwise_cons.1 hpf).1
                exact Or.symm (h1 f (List.mem_cons_of_mem _ hf))
              · exact (hframes f hfF).2 m (by rw [hmemsold]; exact hm2)
            · have hpf := hfdisj
              rw [hfr] at hpf
              exact ((List.pairwise_cons.1 (List.pairwise_cons.1 hpf).2).2)


/-- kmem_cache_free, called on a currently-allocated object, succeeds and
preserves the slab-engine invariant. -/
theorem inv_free (st : SlabState) (obj : Nat) (hinv : Inv st)
    (h0 : obj ≠ 0) (ha : allocatedObj st obj) :
    ∃ st', kmem_cache_free st obj = some st' ∧ Inv st' := by
  obtain ⟨hgeom, hwf, hdisj, hpart, hfull, hempty, hframes, hfdisj⟩ := hinv
  obtain ⟨s0, hs0All, hobj_slot, hobj_notin⟩ := ha
  have hP : PGSIZE = 4096 := rfl
  have hos : 0 < st.cache.objsize := by
    rcases Nat.eq_zero_or_pos st.cache.objsize with h1 | h1
    · rw [h1] at hgeom
      simp [Nat.div_zero] at hgeom
    · exact h1
  have hnodup : (memsOf st.cache).Nodup := nodup_of_pairwise_disjoint hdisj
  have hs0wf := hwf s0 hs0All
  have hfit : st.cache.objsize * s0.nr_objs ≤ PGSIZE := by
    rw [hs0wf.2.1]
    calc st.cache.objsize * (PGSIZE / st.cache.objsize)
        = PGSIZE / st.cache.objsize * st.cache.objsize := Nat.mul_comm _ _
      _ ≤ PGSIZE := Nat.div_mul_le_self _ _
  have hobj_range := slot_in_range hos hfit hobj_slot
  have hN2 : 2 ≤ s0.nr_objs := by
    have := hs0wf.2.1
    omega
  -- the scan finds exactly s0
  obtain ⟨s, hs⟩ : ∃ s, find_owner st.cache obj = some s := by
    cases hfo : find_owner st.cache obj with
    | some s => exact ⟨s, rfl⟩
    | none =>
      rw [find_owner_none_iff] at hfo
      exact absurd ⟨hobj_range.1, hobj_range.2⟩ (hfo s0 hs0All)
  obtain ⟨hslists, hsr1, hsr2⟩ := find_owner_some _ _ _ hs
  have hsAll : s ∈ allSlabs st.cache := by
    unfold allSlabs
    rcases hslists with h1 | h1 | h1
    · exact List.mem_append_left _ (List.mem_append_left _ h1)
    · exact List.mem_append_left _ (List.mem_append_right _ h1)
    · exact List.mem_append_right _ h1
  have hmemeq : s.mem = s0.mem := by
    by_contra hne
    have hd : addrDisjoint s.mem s0.mem :=
      hdisj.forall (fun a b hab => Or.symm hab)
        (List.mem_map_of_mem SlabHdr.mem hsAll)
        (List.mem_map_of_mem SlabHdr.mem hs0All) hne
    unfold addrDisjoint at hd
    omega
  have hseq : s = s0 := mems_nodup_unique hnodup hsAll hs0All hmemeq
  subst hseq
  -- s0 is not on the empty list
  have hnotE : s ∉ st.cache.empty_slabs := by
    intro hE
    have hfree := hempty s hE
    exact hobj_notin (chain_covers hs0wf hos hfree obj hobj_slot)
  have hcap : s.nr_free < s.nr_objs := by
    rcases hslists with h1 | h1 | h1
    · exact (hpart s h1).2
    · have := hfull s h1
      omega
    · exact absurd h1 hnotE
  obtain ⟨hs2wf, huinc, hLnew⟩ := slabWF_push hs0wf hobj_slot hobj_notin hcap
  set h2 : Nat → Nat := fun a => if a = obj then s.freelist else st.heap a with hh2
  set s' : SlabHdr := { s with freelist := obj, nr_free := uinc s.nr_free } with hs2def
  -- nodup decomposition of the address list
  have hmemsplit : memsOf st.cache =
      (st.cache.partial_slabs.map SlabHdr.mem ++
        st.cache.full_slabs.map SlabHdr.mem) ++
        st.cache.empty_slabs.map SlabHdr.mem := by
    simp [memsOf, allSlabs]
  have hsplitnd := hnodup
  rw [hmemsplit] at hsplitnd
  have hndPF := hsplitnd.of_append_left
  have hdisjPFE := List.disjoint_of_nodup_append hsplitnd
  have hdisjPF := List.disjoint_of_nodup_append hndPF
  -- heap agreement for every other slab
  have hother : ∀ t ∈ allSlabs st.cache, t.mem ≠ s.mem →
      slabWF h2 st.cache.objsize t := by
    intro t htAll htne
    refine slabWF_other (hwf t htAll) hos ?_ ?_
    · rw [(hwf t htAll).2.1]
      calc st.cache.objsize * (PGSIZE / st.cache.objsize)
          = PGSIZE / st.cache.objsize * st.cache.objsize := Nat.mul_comm _ _
        _ ≤ PGSIZE := Nat.div_mul_le_self _ _
    · intro a ha1 ha2
      have hd : addrDisjoint t.mem s.mem :=
        hdisj.forall (fun a b hab => Or.symm hab)
          (List.mem_map_of_mem SlabHdr.mem htAll)
          (List.mem_map_of_mem SlabHdr.mem hs0All) htne
      have hane : a ≠ obj := by
        unfold addrDisjoint at hd
        omega
      rw [hh2]
      simp [hane]
  -- the updated slab is well formed under the new heap
  rcases hslists with hsP | hsF | hsE
  · -- s was partial: the slab either fills up to empty or stays partial
    have hs_nf := hpart s hsP
    have hnotinF : ∀ x ∈ st.cache.full_slabs, x.mem ≠ s'.mem := by
      intro x hx hxm
      exact hdisjPF (List.mem_map_of_mem SlabHdr.mem hsP)
        (by rw [← hxm]; exact List.mem_map_of_mem SlabHdr.mem hx)
    have hnotinE2 : ∀ x ∈ st.cache.empty_slabs, x.mem ≠ s'.mem := by
      intro x hx hxm
      exact hdisjPFE
        (List.mem_append_left _ (List.mem_map_of_mem SlabHdr.mem hsP))
        (by rw [← hxm]; exact List.mem_map_of_mem SlabHdr.mem hx)
    have hupdF : update_slab st.cache.full_slabs s' = st.cache.full_slabs :=
      update_slab_not_mem hnotinF
    have hupdE : update_slab st.cache.empty_slabs s' = st.cache.empty_slabs :=
      update_slab_not_mem hnotinE2
    have hcond1 : ¬ (s'.nr_free = 1) := by
      show ¬ (uinc s.nr_free = 1)
      rw [huinc]
      omega
    have hndP : (st.cache.partial_slabs.map SlabHdr.mem).Nodup :=
      hndPF.of_append_left
    have hndUP : ((update_slab st.cache.partial_slabs s').map SlabHdr.mem).Nodup := by
      rw [mems_update_slab]
      exact hndP
    have hs2inUP : s' ∈ update_slab st.cache.partial_slabs s' :=
      mem_update_slab _ _ _ hsP rfl
    -- members of the shrunken partial list are original partial slabs
    have hPmem : ∀ x ∈ slab_remove (update_slab st.cache.partial_slabs s') s',
        x ∈ st.cache.partial_slabs ∧ x.mem ≠ s'.mem := by
      intro x hx
      have hx2 := mem_slab_remove_ne hndUP ⟨s', hs2inUP, rfl⟩ hx
      rcases mem_update_slab_cases hx2.1 with rfl | hx3
      · exact absurd rfl hx2.2
      · exact hx3
    have hpermP : (st.cache.partial_slabs.map SlabHdr.mem).Perm
        (s'.mem :: (slab_remove (update_slab st.cache.partial_slabs s') s').map
          SlabHdr.mem) := by
      have hmid := mems_remove_perm (l := update_slab st.cache.partial_slabs s')
        (s := s') (x := s') hs2inUP rfl
      rw [mems_update_slab] at hmid
      exact hmid
    by_cases hfin : s'.nr_free = s'.nr_objs
    · -- the slab becomes completely free and moves to the empty list
      refine ⟨{ st with heap := h2, cache := { st.cache with
          partial_slabs := slab_remove (update_slab st.cache.partial_slabs s') s',
          empty_slabs := s' :: st.cache.empty_slabs } }, ?_, ?_⟩
      · unfold kmem_cache_free
        rw [if_neg h0, hs]
        simp only [if_neg hcond1, if_pos hfin, hupdF, hupdE]
      · have hpermAll : ((slab_remove (update_slab st.cache.partial_slabs s') s').map
            SlabHdr.mem ++ st.cache.full_slabs.map SlabHdr.mem ++
            (s'.mem :: st.cache.empty_slabs.map SlabHdr.mem)).Perm
            (memsOf st.cache) := by
          have hstep1 : (memsOf st.cache).Perm
              (s'.mem :: ((slab_remove (update_slab st.cache.partial_slabs s') s').map
                SlabHdr.mem ++ st.cache.full_slabs.map SlabHdr.mem ++
                st.cache.empty_slabs.map SlabHdr.mem)) := by
            rw [hmemsplit]
            have hA := (hpermP.append_right
              (st.cache.full_slabs.map SlabHdr.mem)).append_right
              (st.cache.empty_slabs.map SlabHdr.mem)
            refine hA.trans ?_
            have hEq : ((s'.mem :: (slab_remove (update_slab st.cache.partial_slabs s')
                s').map SlabHdr.mem) ++ st.cache.full_slabs.map SlabHdr.mem) ++
                st.cache.empty_slabs.map SlabHdr.mem =
                s'.mem :: ((slab_remove (update_slab st.cache.partial_slabs s') s').map
                  SlabHdr.mem ++ st.cache.full_slabs.map SlabHdr.mem ++
                  st.cache.empty_slabs.map SlabHdr.mem) := by
              simp
            rw [hEq]
          have hstep2 : ((slab_remove (update_slab st.cache.partial_slabs s') s').map
              SlabHdr.mem ++ st.cache.full_slabs.map SlabHdr.mem ++
              (s'.mem :: st.cache.empty_slabs.map SlabHdr.mem)).Perm
              (s'.mem :: ((slab_remove (update_slab st.cache.partial_slabs s') s').map
                SlabHdr.mem ++ st.cache.full_slabs.map SlabHdr.mem ++
                st.cache.empty_slabs.map SlabHdr.mem)) := by
            have := @List.perm_middle Nat s'.mem
              ((slab_remove (update_slab st.cache.partial_slabs s') s').map
                SlabHdr.mem ++ st.cache.full_slabs.map SlabHdr.mem)
              (st.cache.empty_slabs.map SlabHdr.mem)
            simpa [List.append_assoc] using this
          exact hstep2.trans hstep1.symm
        refine ⟨hgeom, ?_, ?_, ?_, ?_, ?_, ?_, hfdisj⟩
        · intro t ht
          have ht2 : t ∈ slab_remove (update_slab st.cache.partial_slabs s') s' ++
              st.cache.full_slabs ++ (s' :: st.cache.empty_slabs) := ht
          rcases List.mem_append.1 ht2 with ht3 | ht3
          · rcases List.mem_append.1 ht3 with ht4 | ht4
            · have hx := hPmem t ht4
              exact hother t (by
                unfold allSlabs
                exact List.mem_append_left _ (List.mem_append_left _ hx.1)) hx.2
            · exact hother t (by
                unfold allSlabs
                exact List.mem_append_left _ (List.mem_append_right _ ht4))
                (hnotinF t ht4)
          · rcases List.mem_cons.1 ht3 with rfl | ht4
            · exact hs2wf
            · exact hother t (by
                unfold allSlabs
                exact List.mem_append_right _ ht4) (hnotinE2 t ht4)
        · have hgoal : memsOf { st.cache with
              partial_slabs := slab_remove (update_slab st.cache.partial_slabs s') s',
              empty_slabs := s' :: st.cache.empty_slabs } =
              (slab_remove (update_slab st.cache.partial_slabs s') s').map
                SlabHdr.mem ++ st.cache.full_slabs.map SlabHdr.mem ++
                (s'.mem :: st.cache.empty_slabs.map SlabHdr.mem) := by
            simp [memsOf, allSlabs]
          rw [hgoal]
          exact (hpermAll.pairwise_iff (fun hab => Or.symm hab)).2 hdisj
        · intro t ht
          have ht2 : t ∈ slab_remove (update_slab st.cache.partial_slabs s') s' := ht
          have hx := hPmem t ht2
          exact hpart t hx.1
        · exact hfull
        · intro t ht
          have ht2 : t ∈ s' :: st.cache.empty_slabs := ht
          rcases List.mem_cons.1 ht2 with rfl | ht3
          · exact hfin
          · exact hempty t ht3
        · intro f hf
          refine ⟨(hframes f hf).1, ?_⟩
          intro m hm
          have hgoal : memsOf { st.cache with
              partial_slabs := slab_remove (update_slab st.cache.partial_slabs s') s',
              empty_slabs := s' :: st.cache.empty_slabs } =
              (slab_remove (update_slab st.cache.partial_slabs s') s').map
                SlabHdr.mem ++ st.cache.full_slabs.map SlabHdr.mem ++
                (s'.mem :: st.cache.empty_slabs.map SlabHdr.mem) := by
            simp [memsOf, allSlabs]
          rw [hgoal] at hm
          exact (hframes f hf).2 m (hpermAll.mem_iff.1 hm)
    · -- the slab stays partial
      refine ⟨{ st with heap := h2, cache := { st.cache with
          partial_slabs := update_slab st.cache.partial_slabs s' } }, ?_, ?_⟩
      · unfold kmem_cache_free
        rw [if_neg h0, hs]
        simp only [if_neg hcond1, if_neg hfin, hupdF, hupdE]
      · have hmemseq : memsOf { st.cache with
            partial_slabs := update_slab st.cache.partial_slabs s' } =
            memsOf st.cache := by
          simp only [memsOf, allSlabs, List.map_append]
          rw [mems_update_slab]
        refine ⟨hgeom, ?_, ?_, ?_, ?_, ?_, ?_, hfdisj⟩
        · intro t ht
          have ht2 : t ∈ update_slab st.cache.partial_slabs s' ++
              st.cache.full_slabs ++ st.cache.empty_slabs := ht
          rcases List.mem_append.1 ht2 with ht3 | ht3
          · rcases List.mem_append.1 ht3 with ht4 | ht4
            · rcases mem_update_slab_cases ht4 with rfl | ht5
              · exact hs2wf
              · exact hother t (by
                  unfold allSlabs
                  exact List.mem_append_left _ (List.mem_append_left _ ht5.1)) ht5.2
            · exact hother t (by
                unfold allSlabs
                exact List.mem_append_left _ (List.mem_append_right _ ht4))
                (hnotinF t ht4)
          · exact hother t (by
              unfold allSlabs
              exact List.mem_append_right _ ht3) (hnotinE2 t ht3)
        · rw [hmemseq]
          exact hdisj
        · intro t ht
          have ht2 : t ∈ update_slab st.cache.partial_slabs s' := ht
          rcases mem_update_slab_cases ht2 with rfl | ht3
          · constructor
            · show 0 < s'.nr_free
              have h1 : s'.nr_free = s.nr_free + 1 := huinc
              omega
            · show s'.nr_free < s'.nr_objs
              have h1 : s'.nr_free = s.nr_free + 1 := huinc
              have h3 : s'.nr_objs = s.nr_objs := rfl
              have h4 : ¬ (s'.nr_free = s'.nr_objs) := hfin
              omega
          · exact hpart t ht3.1
        · exact hfull
        · exact hempty
        · intro f hf
          refine ⟨(hframes f hf).1, ?_⟩
          intro m hm
          rw [hmemseq] at hm
          exact (hframes f hf).2 m hm
  · -- s was full: it moves to the partial list
    have hs_nf := hfull s hsF
    have hnotinP : ∀ x ∈ st.cache.partial_slabs, x.mem ≠ s'.mem := by
      intro x hx hxm
      exact hdisjPF (by rw [← hxm]; exact List.mem_map_of_mem SlabHdr.mem hx)
        (List.mem_map_of_mem SlabHdr.mem hsF)
    have hnotinE2 : ∀ x ∈ st.cache.empty_slabs, x.mem ≠ s'.mem := by
      intro x hx hxm
      exact hdisjPFE
        (List.mem_append_right _ (List.mem_map_of_mem SlabHdr.mem hsF))
        (by rw [← hxm]; exact List.mem_map_of_mem SlabHdr.mem hx)
    have hupdP : update_slab st.cache.partial_slabs s' = st.cache.partial_slabs :=
      update_slab_not_mem hnotinP
    have hupdE : update_slab st.cache.empty_slabs s' = st.cache.empty_slabs :=
      update_slab_not_mem hnotinE2
    have hcond1 : s'.nr_free = 1 := by
      show uinc s.nr_free = 1
      rw [huinc, hs_nf]
    have hndF : (st.cache.full_slabs.map SlabHdr.mem).Nodup :=
      hndPF.of_append_right
    have hndUF : ((update_slab st.cache.full_slabs s').map SlabHdr.mem).Nodup := by
      rw [mems_update_slab]
      exact hndF
    have hs2inUF : s' ∈ update_slab st.cache.full_slabs s' :=
      mem_update_slab _ _ _ hsF rfl
    have hFmem : ∀ x ∈ slab_remove (update_slab st.cache.full_slabs s') s',
        x ∈ st.cache.full_slabs ∧ x.mem ≠ s'.mem := by
      intro x hx
      have hx2 := mem_slab_remove_ne hndUF ⟨s', hs2inUF, rfl⟩ hx
      rcases mem_update_slab_cases hx2.1 with rfl | hx3
      · exact absurd rfl hx2.2
      · exact hx3
    have hpermF : (st.cache.full_slabs.map SlabHdr.mem).Perm
        (s'.mem :: (slab_remove (update_slab st.cache.full_slabs s') s').map
          SlabHdr.mem) := by
      have hmid := mems_remove_perm (l := update_slab st.cache.full_slabs s')
        (s := s') (x := s') hs2inUF rfl
      rw [mems_update_slab] at hmid
      exact hmid
    refine ⟨{ st with heap := h2, cache := { st.cache with
        partial_slabs := s' :: st.cache.partial_slabs,
        full_slabs := slab_remove (update_slab st.cache.full_slabs s') s' } }, ?_, ?_⟩
    · unfold kmem_cache_free
      rw [if_neg h0, hs]
      simp only [if_pos hcond1, hupdP, hupdE]
    · have hpermAll : ((s'.mem :: st.cache.partial_slabs.map SlabHdr.mem) ++
          (slab_remove (update_slab st.cache.full_slabs s') s').map SlabHdr.mem ++
          st.cache.empty_slabs.map SlabHdr.mem).Perm (memsOf st.cache) := by
        have hstep1 : (memsOf st.cache).Perm
            (st.cache.partial_slabs.map SlabHdr.mem ++
              ((s'.mem :: (slab_remove (update_slab st.cache.full_slabs s') s').map
                SlabHdr.mem) ++ st.cache.empty_slabs.map SlabHdr.mem)) := by
          rw [hmemsplit]
          have hA := (hpermF.append_right
            (st.cache.empty_slabs.map SlabHdr.mem)).append_left
            (st.cache.partial_slabs.map SlabHdr.mem)
          refine List.Perm.trans ?_ hA
          rw [List.append_assoc]
        have hstep2 : ((s'.mem :: st.cache.partial_slabs.map SlabHdr.mem) ++
            (slab_remove (update_slab st.cache.full_slabs s') s').map SlabHdr.mem ++
            st.cache.empty_slabs.map SlabHdr.mem).Perm
            (st.cache.partial_slabs.map SlabHdr.mem ++
              ((s'.mem :: (slab_remove (update_slab st.cache.full_slabs s') s').map
                SlabHdr.mem) ++ st.cache.empty_slabs.map SlabHdr.mem)) := by
          have hmid := @List.perm_middle Nat s'.mem
            (st.cache.partial_slabs.map SlabHdr.mem)
            ((slab_remove (update_slab st.cache.full_slabs s') s').map
              SlabHdr.mem ++ st.cache.empty_slabs.map SlabHdr.mem)
          refine List.Perm.trans ?_ hmid.symm
          simp [List.append_assoc]
        exact hstep2.trans hstep1.symm
      refine ⟨hgeom, ?_, ?_, ?_, ?_, ?_, ?_, hfdisj⟩
      · intro t ht
        have ht2 : t ∈ (s' :: st.cache.partial_slabs) ++
            slab_remove (update_slab st.cache.full_slabs s') s' ++
            st.cache.empty_slabs := ht
        rcases List.mem_append.1 ht2 with ht3 | ht3
        · rcases List.mem_append.1 ht3 with ht4 | ht4
          · rcases List.mem_cons.1 ht4 with rfl | ht5
            · exact hs2wf
            · exact hother t (by
                unfold allSlabs
                exact List.mem_append_left _ (List.mem_append_left _ ht5))
                (hnotinP t ht5)
          · have hx := hFmem t ht4
            exact hother t (by
              unfold allSlabs
              exact List.mem_append_left _ (List.mem_append_right _ hx.1)) hx.2
        · exact hother t (by
            unfold allSlabs
            exact List.mem_append_right _ ht3) (hnotinE2 t ht3)
      · have hgoal : memsOf { st.cache with
            partial_slabs := s' :: st.cache.partial_slabs,
            full_slabs := slab_remove (update_slab st.cache.full_slabs s') s' } =
            (s'.mem :: st.cache.partial_slabs.map SlabHdr.mem) ++
              (slab_remove (update_slab st.cache.full_slabs s') s').map SlabHdr.mem ++
              st.cache.empty_slabs.map SlabHdr.mem := by
          simp [memsOf, allSlabs]
        rw [hgoal]
        exact (hpermAll.pairwise_iff (fun hab => Or.symm hab)).2 hdisj
      · intro t ht
        have ht2 : t ∈ s' :: st.cache.partial_slabs := ht
        rcases List.mem_cons.1 ht2 with rfl | ht3
        · constructor
          · show 0 < s'.nr_free
            rw [hcond1]
            omega
          · show s'.nr_free < s'.nr_objs
            have h1 : s'.nr_free = 1 := hcond1
            have h3 : s'.nr_objs = s.nr_objs := rfl
            omega
        · exact hpart t ht3
      · intro t ht
        have ht2 : t ∈ slab_remove (update_slab st.cache.full_slabs s') s' := ht
        exact hfull t (hFmem t ht2).1
      · exact hempty
      · intro f hf
        refine ⟨(hframes f hf).1, ?_⟩
        intro m hm
        have hgoal : memsOf { st.cache with
            partial_slabs := s' :: st.cache.partial_slabs,
            full_slabs := slab_remove (update_slab st.cache.full_slabs s') s' } =
            (s'.mem :: st.cache.partial_slabs.map SlabHdr.mem) ++
              (slab_remove (update_slab st.cache.full_slabs s') s').map SlabHdr.mem ++
              st.cache.empty_slabs.map SlabHdr.mem := by
          simp [memsOf, allSlabs]
        rw [hgoal] at hm
        exact (hframes f hf).2 m (hpermAll.mem_iff.1 hm)
  · exact absurd hsE hnotE


/-- C1 (amended): for caches whose geometry gives at least two objects per
slab, the classification invariant — a slab is on the empty list iff
nr_free = nr_objs, on the full list iff nr_free = 0, and on the partial
list iff 0 < nr_free < nr_objs — together with the rest of the slab-engine
invariant is preserved by kmem_cache_alloc, and by kmem_cache_free applied
to a currently-allocated object (which then returns normally).  For
one-object-per-slab caches the invariant fails on the code (see the
counterexample), and a free of an already-free object breaks it as well
(see the C9 trace), so both exclusions are necessary. -/
theorem classification_invariant_preserved (st : SlabState) (obj : Nat)
    (h1 : Inv st) :
    Inv (kmem_cache_alloc st).2 ∧
    (obj ≠ 0 → allocatedObj st obj →
      ∃ st', kmem_cache_free st obj = some st' ∧ Inv st') :=
  ⟨inv_alloc st h1, fun h2 h3 => inv_free st obj h1 h2 h3⟩

/-- Witness for classification_invariant_preserved at the reachable state
trc2 (one full slab) and the allocated object 8192. -/
theorem classification_invariant_preserved_witness :
    Inv trc2 ∧
    (Inv (kmem_cache_alloc trc2).2 ∧
      ((8192 : Nat) ≠ 0 → allocatedObj trc2 8192 →
        ∃ st', kmem_cache_free trc2 8192 = some st' ∧ Inv st')) :=
  ⟨by decide, classification_invariant_preserved trc2 8192 (by decide)⟩

set_option maxRecDepth 4000

/-- Masking with the high bits `2 ^ w - 2 ^ k` rounds a `w`-bit value down
to a multiple of `2 ^ k`. -/
theorem land_high_mask {x k w : Nat} (hk : k ≤ w) (hx : x < 2 ^ w) :
    x &&& (2 ^ w - 2 ^ k) = x / 2 ^ k * 2 ^ k := by
  have hpos : 0 < 2 ^ (w - k) := Nat.two_pow_pos _
  have hmul : 2 ^ k * 2 ^ (w - k) = 2 ^ w := by
    rw [← Nat.pow_add]
    congr 1
    omega
  have hsplit : 2 ^ w - 2 ^ k = 2 ^ k * (2 ^ (w - k) - 1) := by
    rw [Nat.mul_sub_one, hmul]
  apply Nat.eq_of_testBit_eq
  intro i
  rw [Nat.testBit_and, hsplit, Nat.testBit_mul_pow_two,
    Nat.testBit_two_pow_sub_one, Nat.mul_comm (x / 2 ^ k),
    Nat.testBit_mul_pow_two]
  rcases Nat.lt_or_ge i k with hik | hik
  · simp [Nat.not_le_of_lt hik]
  · rcases Nat.lt_or_ge i w with hiw | hiw
    · have hsub : i - k < w - k := by omega
      have hdiv : x / 2 ^ k = x >>> k := (Nat.shiftRight_eq_div_pow x k).symm
      have harg : k + (i - k) = i := by omega
      simp [hik, hsub, hdiv, Nat.testBit_shiftRight, harg]
    · have hxi : x.testBit i = false :=
        Nat.testBit_lt_two_pow
          (lt_of_lt_of_le hx (Nat.pow_le_pow_right (by norm_num) hiw))
      have hdiv : x / 2 ^ k = x >>> k := (Nat.shiftRight_eq_div_pow x k).symm
      have harg : k + (i - k) = i := by omega
      simp [hxi, hdiv, Nat.testBit_shiftRight, harg]

/-- align_size with align = 0 rounds the size up to a multiple of
DEFAULT_ALIGN = 64 (for sizes representable in 32 bits). -/
theorem align_size_zero_eq (size : Nat) (h : size + 63 < U32) :
    align_size size 0 = (size + 63) / 64 * 64 := by
  have h1 : align_size size 0 = ((size + 63) % U32) &&& (U32 - 64) := rfl
  rw [h1, Nat.mod_eq_of_lt h]
  have h2 : U32 - 64 = 2 ^ 32 - 2 ^ 6 := by norm_num [U32]
  have h3 : (64 : Nat) = 2 ^ 6 := by norm_num
  rw [h2]
  have := land_high_mask (x := size + 63) (k := 6) (w := 32) (by norm_num)
    (by simpa [U32] using h)
  rw [this, ← h3]


/-- C3 (counterexample): kmem_cache_create with align = 0 and requested
size 100 stores objsize 128, not 100 — there IS alignment rounding (to the
64-byte default), contradicting natural packing. -/
theorem create_align_zero_not_natural_packing :
    (kmem_cache_create (some "t") 100 0 [4096]).map (fun p => p.1.objsize) = some 128 ∧
    (100 : Nat) ≠ 128 := by decide

/-- C3 (amended): with align = 0, kmem_cache_create stores the requested
size rounded up to the default alignment of 64 bytes (a multiple of 64 that
is at least the requested size), not the unrounded size. -/
theorem create_align_zero_rounds_to_64 (name : String) (size f : Nat)
    (fs : List Nat) (hmin : MIN_OBJ_SIZE ≤ size) (hbound : size + 63 < U32) :
    (kmem_cache_create (some name) size 0 (f :: fs)).map (fun p => p.1.objsize) =
      some ((size + 63) / 64 * 64) ∧
    size ≤ (size + 63) / 64 * 64 ∧ ((size + 63) / 64 * 64) % 64 = 0 := by
  refine ⟨?_, by omega, by omega⟩
  unfold kmem_cache_create
  rw [if_neg (by simp [Nat.not_lt.2 hmin])]
  simp [align_size_zero_eq size hbound]

/-- Witness for create_align_zero_rounds_to_64 at size 100. -/
theorem create_align_zero_rounds_to_64_witness :
    (MIN_OBJ_SIZE ≤ 100 ∧ 100 + 63 < U32) ∧
    ((kmem_cache_create (some "x") 100 0 (4096 :: [])).map (fun p => p.1.objsize) =
        some ((100 + 63) / 64 * 64) ∧
      100 ≤ (100 + 63) / 64 * 64 ∧ ((100 + 63) / 64 * 64) % 64 = 0) :=
  ⟨⟨by decide, by decide⟩,
    create_align_zero_rounds_to_64 "x" 100 4096 [] (by decide) (by decide)⟩

/-- C5 (counterexample): kmem_cache_create with a non-null name, free
frames available, and requested size 4 (smaller than a machine pointer)
returns null instead of rounding the size up. -/
theorem create_small_size_rejected_cex :
    kmem_cache_create (some "t") 4 0 [4096] = none := by decide

/-- C5 (amended): every requested size below MIN_OBJ_SIZE = 8 (the machine
pointer size) makes kmem_cache_create fail with null; no rounding-up to the
pointer floor is performed. -/
theorem create_small_size_rejected (name : Option String) (size align : Nat)
    (frames : List Nat) (h : size < MIN_OBJ_SIZE) :
    kmem_cache_create name size align frames = none := by
  unfold kmem_cache_create
  rw [if_pos (Or.inr h)]

/-- Witness for create_small_size_rejected at size 4. -/
theorem create_small_size_rejected_witness :
    4 < MIN_OBJ_SIZE ∧ kmem_cache_create (some "w") 4 0 [4096] = none :=
  ⟨by decide, create_small_size_rejected (some "w") 4 0 [4096] (by decide)⟩

/-- C4 (counterexample): requested size 8192 (aligned objsize 8192, which
cannot fit alongside anything in one 4096-byte frame) is accepted by
kmem_cache_create — it does not return null. -/
theorem create_oversize_succeeds_cex :
    (kmem_cache_create (some "t") 8192 0 [4096]).map (fun p => p.1.objsize) =
      some 8192 ∧ PGSIZE < 8192 := by decide

/-- C4 (amended): kmem_cache_create performs no frame-fit check: for any
size ≥ MIN_OBJ_SIZE whose aligned objsize exceeds PGSIZE it returns a cache,
and every subsequent kmem_cache_alloc on that cache fails with null (the
slab_create inside refuses objsize > PGSIZE), leaving the state unchanged. -/
theorem create_oversize_alloc_null (name : String) (size align f : Nat)
    (fs : List Nat) (hmin : MIN_OBJ_SIZE ≤ size)
    (hbig : PGSIZE < align_size size align)
    (heap : Nat → Nat) (frames2 : List Nat) :
    ∃ c, kmem_cache_create (some name) size align (f :: fs) = some (c, fs) ∧
      PGSIZE < c.objsize ∧
      kmem_cache_alloc { heap := heap, frames := frames2, cache := c } =
        (0, { heap := heap, frames := frames2, cache := c }) := by
  refine ⟨{ name := name.take 31, objsize := align_size size align, align := align,
            partial_slabs := [], full_slabs := [], empty_slabs := [] }, ?_, hbig, ?_⟩
  · unfold kmem_cache_create
    rw [if_neg (by simp [Nat.not_lt.2 hmin])]
    rfl
  · unfold kmem_cache_alloc slab_create
    simp [hbig]

/-- Witness for create_oversize_alloc_null at size 8192. -/
theorem create_oversize_alloc_null_witness :
    (MIN_OBJ_SIZE ≤ 8192 ∧ PGSIZE < align_size 8192 0) ∧
    (∃ c, kmem_cache_create (some "w") 8192 0 (4096 :: []) = some (c, []) ∧
      PGSIZE < c.objsize ∧
      kmem_cache_alloc { heap := hz, frames := [], cache := c } =
        (0, { heap := hz, frames := [], cache := c })) :=
  ⟨⟨by decide, by decide⟩,
    create_oversize_alloc_null "w" 8192 0 4096 [] (by decide) (by decide) hz []⟩

/-- C2 (counterexample): for the 4096-byte cache, slab_create hands back a
slab whose object area starts exactly at the object frame's base address
8192 (no in-frame header: the header structure is allocated from a second,
separate frame, here 16384) with nr_objs = 1; no positive in-frame header
size `hs` satisfies the claimed nr_objs = ⌊(4096 - hs) / 4096⌋, which is 0
for every positive hs. -/
theorem slab_layout_no_inframe_header_cex :
    kmem_cache_create (some "big") 4096 0 [4096, 8192, 16384] =
      some (bigcache, [8192, 16384]) ∧
    (slab_create bigcache hz [8192, 16384]).map (fun r => (r.1, r.2.2)) =
      some (({ mem := 8192, nr_objs := 1, nr_free := 1, freelist := 8192 } : SlabHdr),
        ([] : List Nat)) ∧
    ¬ ∃ hs, 0 < hs ∧ (1 : Nat) = (PGSIZE - hs) / bigcache.objsize := by
  refine ⟨by decide, by decide, ?_⟩
  rintro ⟨hs, hpos, heq⟩
  have hob : bigcache.objsize = 4096 := rfl
  have hpg : PGSIZE = 4096 := rfl
  rw [hob, hpg] at heq
  rw [Nat.div_eq_of_lt (by omega)] at heq
  exact absurd heq (by decide)

/-- C2 (amended): slab_create consumes two frames — the object area frame
and a separate frame for the slab header structure; the object area is the
whole first frame starting at its base, and nr_objs = ⌊PGSIZE / objsize⌋
with no header deduction. -/
theorem slab_create_layout (cache : KmemCache) (heap : Nat → Nat)
    (page hf : Nat) (rest : List Nat) (h : cache.objsize ≤ PGSIZE) :
    (slab_create cache heap (page :: hf :: rest)).map (fun r => (r.1, r.2.2)) =
      some (({ mem := page, nr_objs := PGSIZE / cache.objsize,
               nr_free := PGSIZE / cache.objsize, freelist := page } : SlabHdr), rest) := by
  unfold slab_create
  rw [if_neg (Nat.not_lt.2 h)]
  rfl

/-- Witness for slab_create_layout on the 2048-byte cache. -/
theorem slab_create_layout_witness :
    tcache.objsize ≤ PGSIZE ∧
    (slab_create tcache hz (8192 :: 16384 :: [])).map (fun r => (r.1, r.2.2)) =
      some (({ mem := 8192, nr_objs := PGSIZE / tcache.objsize,
               nr_free := PGSIZE / tcache.objsize, freelist := 8192 } : SlabHdr),
        ([] : List Nat)) :=
  ⟨by decide, slab_create_layout tcache hz 8192 16384 [] (by decide)⟩


/-- C1 (counterexample): for a cache whose objsize (4096) yields one object
per slab, the very first kmem_cache_alloc creates a slab, hands out its only
object, and leaves the slab on the PARTIAL list with nr_free = 0 — it is not
on the full list, violating the classification invariant as claimed. -/
theorem classification_nr_objs_one_cex :
    kmem_cache_create (some "big") 4096 0 [4096, 8192, 16384] =
      some (bigcache, [8192, 16384]) ∧
    (kmem_cache_alloc bigst0).1 = 8192 ∧
    (kmem_cache_alloc bigst0).2.cache.partial_slabs =
      [{ mem := 8192, nr_objs := 1, nr_free := 0, freelist := 0 }] ∧
    (kmem_cache_alloc bigst0).2.cache.full_slabs = [] ∧
    (kmem_cache_alloc bigst0).2.cache.empty_slabs = [] := by decide

/-- C9: trace on a two-object cache (objsize 2048): allocate both objects,
free both (slab lands on empty with nr_free = nr_objs = 2 and free list
[10240, 8192]), then free 8192 AGAIN: the call returns normally, pushes 8192
onto the free list a second time (freelist = 8192) and bumps nr_free to 3,
which exceeds nr_objs = 2.  Double free is not detected. -/
theorem double_free_not_detected :
    kmem_cache_create (some "t") 2048 0 [4096, 8192, 16384] =
      some (tcache, [8192, 16384]) ∧
    (kmem_cache_alloc trc0).1 = 8192 ∧
    (kmem_cache_alloc trc1).1 = 10240 ∧
    (kmem_cache_free trc2 8192).isSome = true ∧
    (kmem_cache_free trc3 10240).isSome = true ∧
    trc4.cache.empty_slabs =
      [{ mem := 8192, nr_objs := 2, nr_free := 2, freelist := 10240 }] ∧
    chainL trc4.heap 2 10240 = [10240, 8192] ∧
    (kmem_cache_free trc4 8192).isSome = true ∧
    trc5.cache.empty_slabs =
      [{ mem := 8192, nr_objs := 2, nr_free := 3, freelist := 8192 }] := by decide

/-- C6 (counterexample): in the reachable state trc1 (one slab at 8192,
objsize 2048, one object handed out), freeing address 8193 — inside the
slab's frame but at offset 1, NOT a multiple of objsize — does not panic:
kmem_cache_free returns normally, although the claim requires a panic for
misaligned offsets. -/
theorem free_misaligned_not_fatal_cex :
    kmem_cache_create (some "t") 2048 0 [4096, 8192, 16384] =
      some (tcache, [8192, 16384]) ∧
    trc1.cache.partial_slabs.map SlabHdr.mem = [8192] ∧
    (8193 - 8192) % tcache.objsize ≠ 0 ∧
    (kmem_cache_free trc1 8193).isSome = true := by decide

/-- C6 (amended): for non-null cache and obj, kmem_cache_free panics if and
only if obj lies inside NO slab of the cache (no offset-alignment validation
is performed); whenever a slab's frame range contains obj — aligned or not —
the call returns normally after pushing obj onto that slab's free list:
obj's word receives the old free-list head, the slab's freelist becomes obj
and its nr_free is incremented. -/
theorem free_panics_iff_not_found (st : SlabState) (obj : Nat) (h : obj ≠ 0) :
    (kmem_cache_free st obj = none ↔
      ∀ s ∈ allSlabs st.cache, ¬ (s.mem ≤ obj ∧ obj < s.mem + PGSIZE)) ∧
    (∀ s, find_owner st.cache obj = some s →
      ∃ st', kmem_cache_free st obj = some st' ∧
        st'.heap obj = s.freelist ∧
        (∀ a, a ≠ obj → st'.heap a = st.heap a) ∧
        ∃ s' ∈ allSlabs st'.cache, s'.mem = s.mem ∧ s'.freelist = obj ∧
          s'.nr_free = uinc s.nr_free ∧ s'.nr_objs = s.nr_objs) := by
  constructor
  · rw [← find_owner_none_iff]
    unfold kmem_cache_free
    rw [if_neg h]
    cases hf : find_owner st.cache obj with
    | none => simp
    | some s => simp
  · intro s hs
    unfold kmem_cache_free
    rw [if_neg h, hs]
    refine ⟨_, rfl, by simp, fun a ha => by simp [ha], ?_⟩
    set s' : SlabHdr := { s with freelist := obj, nr_free := uinc s.nr_free } with hs'
    refine ⟨s', ?_, rfl, rfl, rfl, rfl⟩
    rcases find_owner_some _ _ _ hs with ⟨hmem, _⟩
    by_cases h1 : s'.nr_free = 1
    · simp only [if_pos h1, allSlabs]
      exact List.mem_append_left _ (List.mem_append_left _ (List.mem_cons_self _ _))
    · by_cases h2 : s'.nr_free = s'.nr_objs
      · simp only [if_neg h1, if_pos h2, allSlabs]
        exact List.mem_append_right _ (List.mem_cons_self _ _)
      · simp only [if_neg h1, if_neg h2, allSlabs]
        rcases hmem with hm | hm | hm
        · exact List.mem_append_left _
            (List.mem_append_left _ (mem_update_slab _ _ _ hm rfl))
        · exact List.mem_append_left _
            (List.mem_append_right _ (mem_update_slab _ _ _ hm rfl))
        · exact List.mem_append_right _ (mem_update_slab _ _ _ hm rfl)


/-- Witness for free_panics_iff_not_found: state trc1, object 8193. -/
theorem free_panics_iff_not_found_witness :
    (8193 : Nat) ≠ 0 ∧
    ((kmem_cache_free trc1 8193 = none ↔
      ∀ s ∈ allSlabs trc1.cache, ¬ (s.mem ≤ 8193 ∧ 8193 < s.mem + PGSIZE)) ∧
    (∀ s, find_owner trc1.cache 8193 = some s →
      ∃ st', kmem_cache_free trc1 8193 = some st' ∧
        st'.heap 8193 = s.freelist ∧
        (∀ a, a ≠ 8193 → st'.heap a = trc1.heap a) ∧
        ∃ s' ∈ allSlabs st'.cache, s'.mem = s.mem ∧ s'.freelist = 8193 ∧
          s'.nr_free = uinc s.nr_free ∧ s'.nr_objs = s.nr_objs)) :=
  ⟨by decide, free_panics_iff_not_found trc1 8193 (by decide)⟩

end Slab

namespace Kalloc

/-- C7 (counterexample): exPa lies inside the reserved super-frame region
installed by kinit, yet kfree accepts it; and freeing the same frame twice
is also accepted — the frame ends up on the free list twice.  Neither the
super-frame-region check nor double-free detection exists in kfree. -/
theorem kfree_missing_checks_cex :
    inSuperRegion exKernelEnd exPa ∧
    (kfree exKernelEnd exPhystop kst0 exPa).isSome = true ∧
    kst1.freelist = [exPa] ∧
    (kfree exKernelEnd exPhystop kst1 exPa).isSome = true ∧
    kst2.freelist = [exPa, exPa] := by
  unfold inSuperRegion
  exact ⟨⟨by decide, by decide⟩, by decide, by decide, by decide, by decide⟩

/-- C7 (amended): kfree panics exactly when the address is misaligned,
below kernelEnd, or at or above PHYSTOP — with no super-frame-region
exclusion and no double-free detection; on every accepted frame it
overwrites the frame's bytes with the poison byte 1 and pushes the frame
onto the free list, leaving all other memory unchanged. -/
theorem kfree_spec (kernelEnd PHYSTOP : Nat) (st : KmemState) (pa : Nat) :
    (kfree kernelEnd PHYSTOP st pa = none ↔
      pa % PGSIZE ≠ 0 ∨ pa < kernelEnd ∨ PHYSTOP ≤ pa) ∧
    (∀ st', kfree kernelEnd PHYSTOP st pa = some st' →
      st'.freelist = pa :: st.freelist ∧
      (∀ a, pa ≤ a → a < pa + PGSIZE → st'.mem a = 1) ∧
      (∀ a, a < pa ∨ pa + PGSIZE ≤ a → st'.mem a = st.mem a)) := by
  unfold kfree
  by_cases hc : pa % PGSIZE ≠ 0 ∨ pa < kernelEnd ∨ PHYSTOP ≤ pa
  · rw [if_pos hc]
    exact ⟨by simp [hc], by simp⟩
  · rw [if_neg hc]
    refine ⟨by simp [hc], ?_⟩
    intro st' hst
    cases hst
    refine ⟨rfl, ?_, ?_⟩
    · intro a h1 h2
      simp [h1, h2]
    · intro a h
      have hn : ¬ (pa ≤ a ∧ a < pa + PGSIZE) := by omega
      simp [hn]

/-- Witness for kfree_spec at the concrete trace input. -/
theorem kfree_spec_witness :
    (kfree exKernelEnd exPhystop kst0 exPa = none ↔
      exPa % PGSIZE ≠ 0 ∨ exPa < exKernelEnd ∨ exPhystop ≤ exPa) ∧
    (∀ st', kfree exKernelEnd exPhystop kst0 exPa = some st' →
      st'.freelist = exPa :: kst0.freelist ∧
      (∀ a, exPa ≤ a → a < exPa + PGSIZE → st'.mem a = 1) ∧
      (∀ a, a < exPa ∨ exPa + PGSIZE ≤ a → st'.mem a = kst0.mem a)) :=
  kfree_spec exKernelEnd exPhystop kst0 exPa

end Kalloc

namespace SysSlab

/-- C10: the syscall layer admits at most MAX_CACHES = 64 registered caches.
sys_kmem_cache_create stores the newly created cache at the lowest free
index of the handle table and returns that index; when no index is free it
destroys the cache it just created and returns -1 with the table unchanged;
sys_kmem_cache_destroy clears the entry, and a create performed after
destroying entry i of a previously full table returns the same index i. -/
theorem handle_table_spec (t : List (Option Nat)) (c i : Nat) :
    (alloc_cache_id t = some i →
      sys_kmem_cache_create t (some c) =
        ⟨(i : Int), t.set i (some c), false⟩ ∧
      i < t.length ∧ t.getD i (some 0) = none ∧
      (∀ j, j < i → t.getD j none ≠ none) ∧
      (t.set i (some c)).getD i none = some c) ∧
    ((∀ e ∈ t, e ≠ none) → sys_kmem_cache_create t (some c) = ⟨-1, t, true⟩) ∧
    (t.getD i none ≠ none → i < MAX_CACHES →
      sys_kmem_cache_destroy t (i : Int) = (0, t.set i none) ∧
      (t.set i none).getD i none = none) ∧
    (t.length = MAX_CACHES → i < MAX_CACHES → (∀ e ∈ t, e ≠ none) →
      (sys_kmem_cache_create (t.set i none) (some c)).ret = (i : Int)) := by
  refine ⟨?_, ?_, ?_, ?_⟩
  · intro h
    have hfind := h
    unfold alloc_cache_id at hfind
    rw [List.findIdx?_eq_some_iff_getElem] at hfind
    obtain ⟨hlen, hp, hj⟩ := hfind
    refine ⟨?_, hlen, ?_, ?_, ?_⟩
    · unfold sys_kmem_cache_create
      rw [h]
    · rw [List.getD_eq_getElem?_getD, List.getElem?_eq_getElem hlen]
      simpa using Option.isNone_iff_eq_none.1 hp
    · intro j hji
      have hjlen : j < t.length := Nat.lt_trans hji hlen
      rw [List.getD_eq_getElem?_getD, List.getElem?_eq_getElem hjlen]
      have hnp := hj j hji
      simp only [Option.getD_some]
      intro hnone
      exact hnp (by simp [hnone])
    · rw [List.getD_eq_getElem?_getD,
        List.getElem?_eq_getElem (by simpa using hlen)]
      simp
  · intro h
    have hnone : alloc_cache_id t = none := by
      unfold alloc_cache_id
      rw [List.findIdx?_eq_none_iff]
      intro x hx
      have hxne := h x hx
      cases x with
      | none => exact absurd rfl hxne
      | some v => simp
    unfold sys_kmem_cache_create
    rw [hnone]
  · intro hne hlt
    have hlen : i < t.length := by
      by_contra hge
      apply hne
      rw [List.getD_eq_getElem?_getD, List.getElem?_eq_none (by omega)]
      rfl
    have hcond : ¬ ((i : Int) < 0 ∨ (MAX_CACHES : Int) ≤ (i : Int) ∨
        t.getD ((i : Int)).toNat none = none) := by
      rintro (hbad | hbad | hbad)
      · omega
      · simp only [MAX_CACHES] at hbad hlt
        omega
      · rw [Int.toNat_ofNat] at hbad
        exact hne hbad
    unfold sys_kmem_cache_destroy
    rw [if_neg hcond, Int.toNat_ofNat]
    refine ⟨rfl, ?_⟩
    rw [List.getD_eq_getElem?_getD,
      List.getElem?_eq_getElem (by simpa using hlen)]
    simp
  · intro hlen64 hi hall
    have hlt : i < t.length := by
      simp only [MAX_CACHES] at hlen64 hi
      omega
    have hfind : alloc_cache_id (t.set i none) = some i := by
      unfold alloc_cache_id
      rw [List.findIdx?_eq_some_iff_getElem]
      refine ⟨by simpa using hlt, by simp, ?_⟩
      intro j hji
      have hjlen : j < t.length := Nat.lt_trans hji hlt
      have hjne : i ≠ j := fun hij => absurd hji (by omega)
      rw [List.getElem_set_ne hjne]
      have hmem := hall (t.get ⟨j, hjlen⟩) (List.get_mem t j hjlen)
      simpa [List.get_eq_getElem] using hmem
    unfold sys_kmem_cache_create
    rw [hfind]

/-- Witness for handle_table_spec: table with one free slot at index 0. -/
theorem handle_table_spec_witness :
    (alloc_cache_id (none :: List.replicate 63 (some 1)) = some 0 →
      sys_kmem_cache_create (none :: List.replicate 63 (some 1)) (some 7) =
        ⟨((0:Nat) : Int), (none :: List.replicate 63 (some 1)).set 0 (some 7), false⟩ ∧
      0 < (none :: List.replicate 63 (some 1)).length ∧
      (none :: List.replicate 63 (some 1)).getD 0 (some 0) = none ∧
      (∀ j, j < 0 → (none :: List.replicate 63 (some 1)).getD j none ≠ none) ∧
      ((none :: List.replicate 63 (some 1)).set 0 (some 7)).getD 0 none = some 7) ∧
    ((∀ e ∈ (none :: List.replicate 63 (some 1)), e ≠ none) →
      sys_kmem_cache_create (none :: List.replicate 63 (some 1)) (some 7) =
        ⟨-1, none :: List.replicate 63 (some 1), true⟩) ∧
    ((none :: List.replicate 63 (some 1)).getD 0 none ≠ none → 0 < MAX_CACHES →
      sys_kmem_cache_destroy (none :: List.replicate 63 (some 1)) ((0:Nat) : Int) =
        (0, (none :: List.replicate 63 (some 1)).set 0 none) ∧
      ((none :: List.replicate 63 (some 1)).set 0 none).getD 0 none = none) ∧
    ((none :: List.replicate 63 (some 1)).length = MAX_CACHES → 0 < MAX_CACHES →
      (∀ e ∈ (none :: List.replicate 63 (some 1)), e ≠ none) →
      (sys_kmem_cache_create
        ((none :: List.replicate 63 (some 1)).set 0 none) (some 7)).ret =
          ((0:Nat) : Int)) :=
  handle_table_spec (none :: List.replicate 63 (some 1)) 7 0

end SysSlab
